import Mathlib

/-
Verification development for the calendar-driven asset collection engine
(src/immich_holiday_album_collector.py).

Modelling conventions:
- Python strings are modelled as `List Char` (abbreviated `Str`); string
  helpers (`strip`, `split`, `rstrip`, ...) are re-implemented below with
  Python's semantics on the ASCII range the program manipulates.
- Python integers are `Int` (or `Nat` where the source values are
  non-negative).  Lean's `Int` notation `/` is Euclidean division and `%`
  Euclidean mod, which coincide with Python's floor `//` and `%` whenever
  the divisor is positive, as it is everywhere in the source.
- Fallible Python code (raising exceptions) is modelled with `Except`.
- Network interactions are modelled by oracles (pure functions standing
  for the server's deterministic responses) and, for the orchestrator, an
  event trace recording every request issued and every poll of the
  cancellation flag.
-/

abbrev Str := List Char

/-- The whitespace class of Python's `str.strip()` (ASCII part). -/
def isPySpace (c : Char) : Bool :=
  c = ' ' || c = '\t' || c = '\n' || c = '\x0b' || c = '\x0c' || c = '\r'

/-- Python `s.strip()`: drop leading and trailing whitespace. -/
def pyStrip (s : Str) : Str :=
  ((s.dropWhile isPySpace).reverse.dropWhile isPySpace).reverse

/-- Python `s.rstrip(chars)` for a single-character class `p`. -/
def pyRstrip (p : Char → Bool) (s : Str) : Str :=
  (s.reverse.dropWhile p).reverse

/-- Python `s.split(sep)` for a one-character separator (`"".split(sep) = [""]`). -/
def splitOnChar (sep : Char) : Str → List Str
  | [] => [[]]
  | c :: cs =>
    let r := splitOnChar sep cs
    if c = sep then [] :: r else (c :: r.headD []) :: r.tail

/-- `acc` extended by `x` unless already present: one step of the source's
`if x not in seen: seen.add(x); acc.append(x)` idiom (`seen` always equals
the set of elements of `acc`). -/
def appendUnique {α : Type} [DecidableEq α] (acc : List α) (x : α) : List α :=
  if x ∈ acc then acc else acc ++ [x]

/-- Deduplication keeping the first occurrence of each element. -/
def dedupFirst {α : Type} [DecidableEq α] : List α → List α
  | [] => []
  | a :: l => a :: (dedupFirst l).filter (fun x => x ≠ a)

/-- Lexicographic (code-point) order on strings, as Python `sorted` uses. -/
def strLe : Str → Str → Bool
  | [], _ => true
  | _ :: _, [] => false
  | a :: as, b :: bs => if a = b then strLe as bs else decide (a.val < b.val)

def insertSorted (x : Str) : List Str → List Str
  | [] => [x]
  | y :: ys => if strLe x y then x :: y :: ys else y :: insertSorted x ys

/-- Python `sorted` on a list of strings (insertion sort; only the
multiset-preservation property matters below). -/
def sortStrs (l : List Str) : List Str := l.foldr insertSorted []

def isHexDigit (c : Char) : Bool :=
  c.isDigit || ('a' ≤ c && c ≤ 'f') || ('A' ≤ c && c ≤ 'F')

/-- The source's `UUID_PATTERN` regex
`^[0-9a-fA-F]{8}-[0-9a-fA-F]{4}-[0-9a-fA-F]{4}-[0-9a-fA-F]{4}-[0-9a-fA-F]{12}$`:
36 characters, dashes exactly at offsets 8, 13, 18, 23, hex digits elsewhere. -/
def uuidPattern (s : Str) : Bool :=
  s.length = 36 && (List.range 36).all (fun i =>
    if i = 8 || i = 13 || i = 18 || i = 23 then s.getD i ' ' = '-'
    else isHexDigit (s.getD i ' '))

/-- Modelled from the spec: the general "UUID textual form" of the data
model, read as five dash-separated hex groups of sizes 8-4-4-4-12. -/
def uuidTextualForm (s : Str) : Bool :=
  ((splitOnChar '-' s).map List.length) = [8, 4, 4, 4, 12] &&
  (splitOnChar '-' s).all (fun g => g.all isHexDigit)

/-- Modelled from the spec: the "UUID v4 textual form" named by the data
model row for PersonId (not present in the code): the general textual form
with version nibble `4` and variant nibble in `8/9/a/b`. -/
def uuidV4Form (s : Str) : Bool :=
  uuidTextualForm s && s.getD 14 ' ' = '4' &&
  (s.getD 19 ' ' = '8' || s.getD 19 ' ' = '9' || s.getD 19 ' ' = 'a' ||
   s.getD 19 ' ' = 'b' || s.getD 19 ' ' = 'A' || s.getD 19 ' ' = 'B')

/-
Calendar model.  Dates are proleptic-Gregorian ordinals (day 1 =
0001-01-01), exactly `datetime.date.toordinal`; `datetime(y, m, d)`
construction, which raises for invalid components, is `mkDate`.
-/

def isLeapYear (y : Nat) : Bool := y % 4 = 0 && (y % 100 ≠ 0 || y % 400 = 0)

def daysInMonth (y m : Nat) : Nat :=
  if m = 2 then (if isLeapYear y then 29 else 28)
  else if m = 4 || m = 6 || m = 9 || m = 11 then 30
  else 31

def daysBeforeMonth (y m : Nat) : Nat :=
  ((List.range (m - 1)).map (fun i => daysInMonth y (i + 1))).sum

def toOrdinal (y m d : Nat) : Nat :=
  365 * (y - 1) + (y - 1) / 4 - (y - 1) / 100 + (y - 1) / 400 +
    daysBeforeMonth y m + d

/-- `datetime(year, month, day)`: validates components (datetime years run
1..9999) and yields the date's ordinal. -/
def mkDate (y m d : Nat) : Except Str Nat :=
  if 1 ≤ y ∧ y ≤ 9999 ∧ 1 ≤ m ∧ m ≤ 12 ∧ 1 ≤ d ∧ d ≤ daysInMonth y m then
    .ok (toOrdinal y m d)
  else .error "invalid date".data

/-- `datetime.weekday()`: Monday = 0 (ordinal 1 is a Monday). -/
def pyWeekday (ord : Nat) : Nat := (ord + 6) % 7

/-- `get_fixed_date` of the source. -/
def get_fixed_date (y m d : Nat) : Except Str Nat := mkDate y m d

/-- The `while d.weekday() != weekday: d += timedelta(days=1)` loop of
`get_nth_weekday_of_month`; it advances at most 6 days, so fuel 7 is exact. -/
def advanceToWeekday : Nat → Nat → Nat → Nat
  | 0, _, d => d
  | fuel + 1, w, d => if pyWeekday d = w then d else advanceToWeekday fuel w (d + 1)

/-- The backward loop of `get_last_weekday_of_month` (at most 6 steps). -/
def retreatToWeekday : Nat → Nat → Nat → Nat
  | 0, _, d => d
  | fuel + 1, w, d => if pyWeekday d = w then d else retreatToWeekday fuel w (d - 1)

/-- `get_nth_weekday_of_month` of the source. -/
def get_nth_weekday_of_month (y m w nth : Nat) : Except Str Nat := do
  let d ← mkDate y m 1
  pure (advanceToWeekday 7 w d + 7 * (nth - 1))

/-- `get_last_weekday_of_month` of the source. -/
def get_last_weekday_of_month (y m w : Nat) : Except Str Nat := do
  let d ← mkDate y m (daysInMonth y m)
  pure (retreatToWeekday 7 w d)

/-- `get_easter_date` of the source (Meeus/Jones/Butcher computus), the
(month, day) pair it feeds to `datetime`.  All divisors are positive, so
Lean's Euclidean `/` and `%` on `Int` agree with Python's `//` and `%`. -/
def get_easter_date (year : Nat) : Nat × Nat :=
  let y : Int := year
  let a := y % 19
  let b := y / 100
  let c := y % 100
  let d := b / 4
  let e := b % 4
  let f := (b + 8) / 25
  let g := (b - f + 1) / 3
  let h := (19 * a + b - d - g + 15) % 30
  let i := c / 4
  let k := c % 4
  let l := (32 + 2 * e + 2 * i - h - k) % 7
  let m := (a + 11 * h + 22 * l) / 451
  let month := (h + l - 7 * m + 114) / 31
  let day := ((h + l - 7 * m + 114) % 31) + 1
  (month.toNat, day.toNat)

/-- `get_holiday_date` of the source: the thirteen-way dispatch on the
holiday name, raising `ValueError(f"Unknown holiday: {name}")` otherwise. -/
def get_holiday_date (year : Nat) (holiday_name : String) : Except Str Nat :=
  if holiday_name = "New Year\x27s Day" then get_fixed_date year 1 1
  else if holiday_name = "Martin Luther King Jr. Day" then get_nth_weekday_of_month year 1 0 3
  else if holiday_name = "Presidents\x27 Day" then get_nth_weekday_of_month year 2 0 3
  else if holiday_name = "Easter" then
    let md := get_easter_date year
    mkDate year md.1 md.2
  else if holiday_name = "Memorial Day" then get_last_weekday_of_month year 5 0
  else if holiday_name = "Juneteenth" then get_fixed_date year 6 19
  else if holiday_name = "Independence Day" then get_fixed_date year 7 4
  else if holiday_name = "Labor Day" then get_nth_weekday_of_month year 9 0 1
  else if holiday_name = "Columbus Day" then get_nth_weekday_of_month year 10 0 2
  else if holiday_name = "Halloween" then get_fixed_date year 10 31
  else if holiday_name = "Veterans Day" then get_fixed_date year 11 11
  else if holiday_name = "Thanksgiving" then get_nth_weekday_of_month year 11 3 4
  else if holiday_name = "Christmas" then get_fixed_date year 12 25
  else .error ("Unknown holiday: ".data ++ holiday_name.data)

/-- The thirteen holiday names recognized by `get_holiday_date`
(`DEFAULT_HOLIDAYS` of the source). -/
def recognizedHolidays : List String :=
  ["New Year\x27s Day", "Martin Luther King Jr. Day", "Presidents\x27 Day",
   "Easter", "Memorial Day", "Juneteenth", "Independence Day", "Labor Day",
   "Columbus Day", "Halloween", "Veterans Day", "Thanksgiving", "Christmas"]

deriving instance DecidableEq for Except

/-- `get_date_range` of `run_search`.  Instants are seconds; `dayOf t` is
the calendar day containing instant `t`.  The base dates the program
passes in are midnights, but the model allows any instant. -/
def dayOf (t : Int) : Int := t / 86400

def get_date_range (base : Int) (delta : Nat) : Int × Int :=
  if delta = 0 then
    let day_start := 86400 * dayOf base
    (day_start, day_start + 86400)
  else (base - 86400 * delta, base + 86400 * delta)

lemma one_le_daysInMonth (y m : Nat) : 1 ≤ daysInMonth y m := by
  unfold daysInMonth
  repeat' split
  all_goals omega

lemma mkDate_ok (y m d : Nat)
    (h : 1 ≤ y ∧ y ≤ 9999 ∧ 1 ≤ m ∧ m ≤ 12 ∧ 1 ≤ d ∧ d ≤ daysInMonth y m) :
    mkDate y m d = .ok (toOrdinal y m d) := by
  unfold mkDate
  rw [if_pos h]

lemma get_nth_weekday_ok (y m w nth : Nat)
    (h : 1 ≤ y ∧ y ≤ 9999 ∧ 1 ≤ m ∧ m ≤ 12) :
    get_nth_weekday_of_month y m w nth =
      .ok (advanceToWeekday 7 w (toOrdinal y m 1) + 7 * (nth - 1)) := by
  unfold get_nth_weekday_of_month
  rw [mkDate_ok y m 1 ⟨h.1, h.2.1, h.2.2.1, h.2.2.2, le_refl 1, one_le_daysInMonth y m⟩]
  rfl

lemma get_last_weekday_ok (y m w : Nat)
    (h : 1 ≤ y ∧ y ≤ 9999 ∧ 1 ≤ m ∧ m ≤ 12) :
    get_last_weekday_of_month y m w =
      .ok (retreatToWeekday 7 w (toOrdinal y m (daysInMonth y m))) := by
  unfold get_last_weekday_of_month
  rw [mkDate_ok y m (daysInMonth y m)
    ⟨h.1, h.2.1, h.2.2.1, h.2.2.2, one_le_daysInMonth y m, le_refl _⟩]
  rfl

/-- The computus always lands in March (day ≤ 31) or April (day ≤ 30), so
the final `datetime(year, month, day)` never raises. -/
lemma easter_bounds (year : Nat) :
    1 ≤ (get_easter_date year).2 ∧
    ((get_easter_date year).1 = 3 ∧ (get_easter_date year).2 ≤ 31 ∨
     (get_easter_date year).1 = 4 ∧ (get_easter_date year).2 ≤ 30) := by
  unfold get_easter_date
  dsimp only
  omega

lemma easter_mkDate_ok (year : Nat) (hy1 : 1 ≤ year) (hy2 : year ≤ 9999) :
    ∃ d, mkDate year (get_easter_date year).1 (get_easter_date year).2 = .ok d := by
  rcases easter_bounds year with ⟨h1, h2 | h2⟩ <;>
  · refine ⟨_, mkDate_ok year _ _ ?_⟩
    rw [h2.1]
    refine ⟨hy1, hy2, by omega, by omega, h1, ?_⟩
    simpa [daysInMonth] using h2.2

lemma unknown_holiday (year : Nat) (name : String) (h : name ∉ recognizedHolidays) :
    get_holiday_date year name = .error ("Unknown holiday: ".data ++ name.data) := by
  simp only [recognizedHolidays, List.mem_cons, List.not_mem_nil, or_false, not_or] at h
  obtain ⟨n1, n2, n3, n4, n5, n6, n7, n8, n9, n10, n11, n12, n13⟩ := h
  unfold get_holiday_date
  rw [if_neg n1, if_neg n2, if_neg n3, if_neg n4, if_neg n5, if_neg n6, if_neg n7,
      if_neg n8, if_neg n9, if_neg n10, if_neg n11, if_neg n12, if_neg n13]

lemma recognized_holiday_ok (year : Nat) (name : String)
    (hy1 : 1 ≤ year) (hy2 : year ≤ 9999) (h : name ∈ recognizedHolidays) :
    ∃ d, get_holiday_date year name = .ok d := by
  have hy : 1 ≤ year ∧ year ≤ 9999 := ⟨hy1, hy2⟩
  simp only [recognizedHolidays, List.mem_cons, List.not_mem_nil, or_false] at h
  rcases h with h | h | h | h | h | h | h | h | h | h | h | h | h <;> subst h <;>
    simp only [get_holiday_date, reduceIte, get_fixed_date]
  · exact ⟨_, mkDate_ok year 1 1 ⟨hy.1, hy.2, by omega, by omega, le_refl 1, one_le_daysInMonth _ _⟩⟩
  · exact ⟨_, get_nth_weekday_ok year 1 0 3 ⟨hy.1, hy.2, by omega, by omega⟩⟩
  · exact ⟨_, get_nth_weekday_ok year 2 0 3 ⟨hy.1, hy.2, by omega, by omega⟩⟩
  · exact easter_mkDate_ok year hy.1 hy.2
  · exact ⟨_, get_last_weekday_ok year 5 0 ⟨hy.1, hy.2, by omega, by omega⟩⟩
  · exact ⟨_, mkDate_ok year 6 19 ⟨hy.1, hy.2, by omega, by omega, by omega, by simp [daysInMonth]⟩⟩
  · exact ⟨_, mkDate_ok year 7 4 ⟨hy.1, hy.2, by omega, by omega, by omega, by simp [daysInMonth]⟩⟩
  · exact ⟨_, get_nth_weekday_ok year 9 0 1 ⟨hy.1, hy.2, by omega, by omega⟩⟩
  · exact ⟨_, get_nth_weekday_ok year 10 0 2 ⟨hy.1, hy.2, by omega, by omega⟩⟩
  · exact ⟨_, mkDate_ok year 10 31 ⟨hy.1, hy.2, by omega, by omega, by omega, by simp [daysInMonth]⟩⟩
  · exact ⟨_, mkDate_ok year 11 11 ⟨hy.1, hy.2, by omega, by omega, by omega, by simp [daysInMonth]⟩⟩
  · exact ⟨_, get_nth_weekday_ok year 11 3 4 ⟨hy.1, hy.2, by omega, by omega⟩⟩
  · exact ⟨_, mkDate_ok year 12 25 ⟨hy.1, hy.2, by omega, by omega, by omega, by simp [daysInMonth]⟩⟩

/-- Claim C1: `get_easter_date` reproduces the canonical Gregorian-computus
Easter dates exactly, in particular 2024-03-31 and 2025-04-20, and matches
the published dates at the historically extreme and recent verified years
1818 (earliest possible), 1886, 1943, 2000, 2008, 2011, 2016 and 2038
(latest possible); the holiday resolver returns exactly these dates. -/
theorem easter_canonical_dates :
    get_easter_date 2024 = (3, 31) ∧ get_easter_date 2025 = (4, 20) ∧
    get_easter_date 1818 = (3, 22) ∧ get_easter_date 1886 = (4, 25) ∧
    get_easter_date 1943 = (4, 25) ∧ get_easter_date 2000 = (4, 23) ∧
    get_easter_date 2008 = (3, 23) ∧ get_easter_date 2011 = (4, 24) ∧
    get_easter_date 2016 = (3, 27) ∧ get_easter_date 2038 = (4, 25) ∧
    get_holiday_date 2024 "Easter" = .ok (toOrdinal 2024 3 31) ∧
    get_holiday_date 2025 "Easter" = .ok (toOrdinal 2025 4 20) := by
  decide

/-- Claim C8: for any year valid for `datetime` (1..9999), the holiday
resolver errors exactly on unrecognized names, the error names the
offending value, and every recognized name resolves without error. -/
theorem holiday_resolver_error_condition (year : Nat) (name : String)
    (hy1 : 1 ≤ year) (hy2 : year ≤ 9999) :
    ((∃ e, get_holiday_date year name = .error e) ↔ name ∉ recognizedHolidays) ∧
    (name ∉ recognizedHolidays →
      get_holiday_date year name = .error ("Unknown holiday: ".data ++ name.data)) ∧
    (name ∈ recognizedHolidays → ∃ d, get_holiday_date year name = .ok d) := by
  refine ⟨⟨?_, ?_⟩, fun h => unknown_holiday year name h,
    fun h => recognized_holiday_ok year name hy1 hy2 h⟩
  · rintro ⟨e, he⟩ hmem
    obtain ⟨d, hd⟩ := recognized_holiday_ok year name hy1 hy2 hmem
    rw [he] at hd
    exact Except.noConfusion hd
  · intro h
    exact ⟨_, unknown_holiday year name h⟩

/-- Witness for C8 at concrete inputs: "Easter" 2024 resolves, and the
unrecognized "Flag Day" produces the error that names it. -/
theorem holiday_resolver_error_condition_witness :
    (∃ d, get_holiday_date 2024 "Easter" = .ok d) ∧
    get_holiday_date 2024 "Flag Day" =
      .error ("Unknown holiday: ".data ++ "Flag Day".data) :=
  ⟨(holiday_resolver_error_condition 2024 "Easter" (by decide) (by decide)).2.2 (by decide),
   (holiday_resolver_error_condition 2024 "Flag Day" (by decide) (by decide)).2.1 (by decide)⟩

/-- Claim C2: the date-range builder returns `start < end` always; with
delta 0 the window is exactly the calendar day of the base instant
(midnight to next midnight); with delta > 0 the inclusive window covers
exactly the `2·delta+1` calendar days centered on the base instant's day
(15 days for delta 7). -/
theorem window_spec (base : Int) (delta : Nat) :
    (get_date_range base delta).1 < (get_date_range base delta).2 ∧
    (delta = 0 →
      (get_date_range base delta).1 = 86400 * dayOf base ∧
      (get_date_range base delta).2 = 86400 * dayOf base + 86400 ∧
      (∀ x : Int, ((get_date_range base delta).1 ≤ x ∧
        x < (get_date_range base delta).2) ↔ dayOf x = dayOf base)) ∧
    (0 < delta →
      (∀ k : Int, (∃ x : Int, (get_date_range base delta).1 ≤ x ∧
          x ≤ (get_date_range base delta).2 ∧ dayOf x = k) ↔
        (dayOf base - delta ≤ k ∧ k ≤ dayOf base + delta)) ∧
      (Finset.Icc (dayOf base - (delta : Int)) (dayOf base + delta)).card
        = 2 * delta + 1) := by
  refine ⟨?_, ?_, ?_⟩
  · by_cases h0 : delta = 0
    · subst h0
      have hgd : get_date_range base 0 = (86400 * dayOf base, 86400 * dayOf base + 86400) := rfl
      rw [hgd]
      dsimp only
      omega
    · have hgd : get_date_range base delta = (base - 86400 * delta, base + 86400 * delta) := by
        unfold get_date_range
        rw [if_neg h0]
      rw [hgd]
      dsimp only
      have h1 : 1 ≤ delta := Nat.one_le_iff_ne_zero.mpr h0
      omega
  · intro h0
    subst h0
    have hgd : get_date_range base 0 = (86400 * dayOf base, 86400 * dayOf base + 86400) := rfl
    rw [hgd]
    dsimp only
    refine ⟨rfl, rfl, fun x => ?_⟩
    unfold dayOf
    omega
  · intro hd
    have hne : ¬ delta = 0 := by omega
    have hgd : get_date_range base delta = (base - 86400 * delta, base + 86400 * delta) := by
      unfold get_date_range
      rw [if_neg hne]
    rw [hgd]
    dsimp only
    constructor
    · intro k
      constructor
      · rintro ⟨x, hx1, hx2, rfl⟩
        unfold dayOf
        omega
      · rintro ⟨hk1, hk2⟩
        by_cases hc : base - 86400 * delta ≤ 86400 * k
        · refine ⟨86400 * k, hc, ?_, ?_⟩
          · unfold dayOf at hk2
            omega
          · unfold dayOf
            omega
        · refine ⟨base - 86400 * delta, le_refl _, by omega, ?_⟩
          unfold dayOf at hk1 hk2 ⊢
          omega
    · rw [Int.card_Icc]
      omega

/-- Witness for C2 at base instant 0, delta 7: a well-ordered window
covering 15 calendar days. -/
theorem window_spec_witness :
    (get_date_range 0 7).1 < (get_date_range 0 7).2 ∧
    (Finset.Icc (dayOf 0 - (7 : Int)) (dayOf 0 + 7)).card = 2 * 7 + 1 :=
  ⟨(window_spec 0 7).1, ((window_spec 0 7).2.2 (by decide)).2⟩

/-
Person token parsing and resolution (`parse_people_input`,
`resolve_person_ids`).  A person record of the search API carries an id
and a name.
-/

structure Person where
  id : Str
  name : Str
deriving DecidableEq

/-- `str(p.get("name", "")).strip().lower()` of line 440. -/
def normName (s : Str) : Str := (pyStrip s).map Char.toLower

/-- `token.lower()` of line 437. -/
def lowerStr (s : Str) : Str := s.map Char.toLower

/-- `re.match(r"^([0-9a-fA-F-]{36})", candidate)`: the leading 36
characters when they all lie in the class, else no match. -/
def uuidPrefix36 (s : Str) : Option Str :=
  let p := s.take 36
  if p.length = 36 && p.all (fun c => isHexDigit c || c = '-') then some p else none

/-- `parse_people_input` of the source: split on commas and newlines,
trim, drop a `#`-comment suffix, and extract a leading UUID if present. -/
def parse_people_input (people_text : Str) : List Str :=
  let normalized := people_text.map (fun c => if c = '\n' then ',' else c)
  let parts := (splitOnChar ',' normalized).map pyStrip
  parts.foldr (fun part tokens =>
    if part.isEmpty then tokens
    else
      let candidate := pyStrip (part.takeWhile (fun c => c ≠ '#'))
      if candidate.isEmpty then tokens
      else
        match uuidPrefix36 candidate with
        | some possible_uuid =>
          if uuidPattern possible_uuid then possible_uuid :: tokens
          else candidate :: tokens
        | none => candidate :: tokens) []

inductive ResolveErr where
  | personNotFound (token : Str)
  | ambiguous (token : Str) (names : List Str)
  | missingId (token : Str)
deriving DecidableEq

/-- Lines 433–456 of `resolve_person_ids`: choose a person among the name
search results (`ms`, the source's `matches`) for a non-UUID token.
Exactly one case-insensitive exact name match wins; otherwise a single
candidate wins; otherwise the ambiguity error lists the sorted distinct
non-empty candidate names. -/
def selectPerson (token : Str) (ms : List Person) : Except ResolveErr Str :=
  if ms.isEmpty then .error (.personNotFound token)
  else
    let exact_matches := ms.filter (fun p => normName p.name = lowerStr token)
    let person? : Option Person :=
      if exact_matches.length = 1 then some (exact_matches.headD ⟨[], []⟩)
      else if ms.length = 1 then some (ms.headD ⟨[], []⟩)
      else none
    match person? with
    | none =>
      .error (.ambiguous token
        (sortStrs (dedupFirst ((ms.map Person.name).filter (fun n => !n.isEmpty)))))
    | some person =>
      if person.id.isEmpty then .error (.missingId token) else .ok person.id

/-- The token loop of `resolve_person_ids`.  `lookup` is the
`search_people_by_name` oracle; `stop` the cancellation flag polled at the
top of each iteration (returning an empty result when set).  Besides the
deduplicated resolved ids the model returns, as observational
instrumentation, the tokens looked up by name and the raw
(pre-deduplication) sequence of resolved ids. -/
def resolveLoop (lookup : Str → List Person) (stop : Bool) :
    List Str → List Str → List Str → List Str →
    Except ResolveErr (List Str) × List Str × List Str
  | [], resolved, lookups, raw => (.ok resolved, lookups, raw)
  | token :: rest, resolved, lookups, raw =>
    if stop then (.ok [], lookups, raw)
    else if uuidPattern token then
      resolveLoop lookup stop rest (appendUnique resolved token) lookups (raw ++ [token])
    else
      match selectPerson token (lookup token) with
      | .error e => (.error e, lookups ++ [token], raw)
      | .ok pid =>
        resolveLoop lookup stop rest (appendUnique resolved pid)
          (lookups ++ [token]) (raw ++ [pid])

/-- `resolve_person_ids` of the source. -/
def resolve_person_ids (lookup : Str → List Person) (stop : Bool) (people_text : Str) :
    Except ResolveErr (List Str) × List Str × List Str :=
  resolveLoop lookup stop (parse_people_input people_text) [] [] []

lemma mem_dedupFirst {α : Type} [DecidableEq α] (x : α) (l : List α) :
    x ∈ dedupFirst l ↔ x ∈ l := by
  induction l with
  | nil => simp [dedupFirst]
  | cons a l ih =>
    simp only [dedupFirst, List.mem_cons, List.mem_filter, ih, decide_eq_true_eq]
    by_cases hxa : x = a
    · simp [hxa]
    · simp [hxa]

lemma nodup_dedupFirst {α : Type} [DecidableEq α] (l : List α) :
    (dedupFirst l).Nodup := by
  induction l with
  | nil => simp [dedupFirst]
  | cons a l ih =>
    refine List.nodup_cons.mpr ⟨fun hmem => ?_, ih.filter _⟩
    have := (List.mem_filter.mp hmem).2
    simp at this

lemma dedupFirst_cons {α : Type} [DecidableEq α] (a : α) (l : List α) :
    dedupFirst (a :: l) = a :: (dedupFirst l).filter (fun y => y ≠ a) := rfl

lemma dedupFirst_append_singleton {α : Type} [DecidableEq α] (l : List α) (x : α) :
    dedupFirst (l ++ [x]) = appendUnique (dedupFirst l) x := by
  induction l with
  | nil => simp [dedupFirst, appendUnique]
  | cons a l ih =>
    rw [List.cons_append, dedupFirst_cons, ih, dedupFirst_cons]
    unfold appendUnique
    by_cases hx : x ∈ dedupFirst l
    · rw [if_pos hx]
      by_cases hxa : x = a
      · rw [if_pos (by simp [hxa])]
      · rw [if_pos (List.mem_cons_of_mem a (List.mem_filter.mpr ⟨hx, by simp [hxa]⟩))]
    · rw [if_neg hx, List.filter_append]
      by_cases hxa : x = a
      · subst hxa
        rw [if_pos (List.mem_cons_self x _)]
        simp
      · have hnm : x ∉ a :: (dedupFirst l).filter (fun y => decide (y ≠ a)) := by
          intro hmem
          rcases List.mem_cons.mp hmem with h | h
          · exact hxa h
          · exact hx (List.mem_filter.mp h).1
        rw [if_neg hnm]
        simp [hxa]

lemma foldl_appendUnique_dedup {α : Type} [DecidableEq α] (l raw : List α) :
    l.foldl appendUnique (dedupFirst raw) = dedupFirst (raw ++ l) := by
  induction l generalizing raw with
  | nil => simp
  | cons a l ih =>
    have h1 : appendUnique (dedupFirst raw) a = dedupFirst (raw ++ [a]) :=
      (dedupFirst_append_singleton raw a).symm
    calc (a :: l).foldl appendUnique (dedupFirst raw)
        = l.foldl appendUnique (dedupFirst (raw ++ [a])) := by rw [List.foldl_cons, h1]
      _ = dedupFirst ((raw ++ [a]) ++ l) := ih (raw ++ [a])
      _ = dedupFirst (raw ++ a :: l) := by simp

lemma resolveLoop_cons (lookup : Str → List Person) (t : Str)
    (rest resolved lookups raw : List Str) :
    resolveLoop lookup false (t :: rest) resolved lookups raw =
      (if uuidPattern t then
        resolveLoop lookup false rest (appendUnique resolved t) lookups (raw ++ [t])
      else
        match selectPerson t (lookup t) with
        | .error e => (.error e, lookups ++ [t], raw)
        | .ok pid =>
          resolveLoop lookup false rest (appendUnique resolved pid)
            (lookups ++ [t]) (raw ++ [pid])) := rfl

lemma resolveLoop_dedup (lookup : Str → List Person) (tokens : List Str) :
    ∀ resolved lookups raw, resolved = dedupFirst raw →
    ∀ ids lks rw0, resolveLoop lookup false tokens resolved lookups raw = (.ok ids, lks, rw0) →
    ids = dedupFirst rw0 := by
  induction tokens with
  | nil =>
    intro resolved lookups raw hinv ids lks rw0 h
    simp only [resolveLoop, Prod.mk.injEq, Except.ok.injEq] at h
    obtain ⟨h1, h2, h3⟩ := h
    subst h1
    subst h3
    exact hinv
  | cons t rest ih =>
    intro resolved lookups raw hinv ids lks rw0 h
    rw [resolveLoop_cons] at h
    by_cases hu : uuidPattern t = true
    · rw [if_pos hu] at h
      exact ih _ _ _ (by rw [hinv]; exact (dedupFirst_append_singleton raw t).symm) _ _ _ h
    · rw [if_neg hu] at h
      cases hsel : selectPerson t (lookup t) with
      | error e =>
        rw [hsel] at h
        simp only [Prod.mk.injEq] at h
        exact Except.noConfusion h.1
      | ok pid =>
        rw [hsel] at h
        exact ih _ _ _ (by rw [hinv]; exact (dedupFirst_append_singleton raw pid).symm) _ _ _ h

lemma resolveLoop_allUUID (lookup : Str → List Person) (tokens : List Str)
    (h : ∀ t ∈ tokens, uuidPattern t = true) :
    ∀ resolved lookups raw, resolveLoop lookup false tokens resolved lookups raw =
      (.ok (tokens.foldl appendUnique resolved), lookups, raw ++ tokens) := by
  induction tokens with
  | nil =>
    intro resolved lookups raw
    simp [resolveLoop]
  | cons t rest ih =>
    intro resolved lookups raw
    have ht := h t (List.mem_cons_self t rest)
    rw [resolveLoop_cons, if_pos ht,
      ih (fun t' ht' => h t' (List.mem_cons_of_mem _ ht')) _ _ _]
    simp

/-- Claim C7: with no cancellation, an input all of whose parsed tokens
are valid UUIDs resolves to exactly those UUIDs unchanged (deduplicated,
first-seen order) with no name lookup performed; and any successful
resolution returns a duplicate-free id list equal to the raw resolution
sequence deduplicated at first-seen positions. -/
theorem resolve_uuid_passthrough_dedup (lookup : Str → List Person) (people_text : Str) :
    ((∀ t ∈ parse_people_input people_text, uuidPattern t = true) →
      resolve_person_ids lookup false people_text =
        (.ok (dedupFirst (parse_people_input people_text)), [],
          parse_people_input people_text) ∧
      (∀ t, t ∈ dedupFirst (parse_people_input people_text) ↔
        t ∈ parse_people_input people_text)) ∧
    (∀ ids lks rw0, resolve_person_ids lookup false people_text = (.ok ids, lks, rw0) →
      ids = dedupFirst rw0 ∧ ids.Nodup) := by
  constructor
  · intro h
    refine ⟨?_, fun t => mem_dedupFirst t _⟩
    unfold resolve_person_ids
    rw [resolveLoop_allUUID lookup _ h [] [] []]
    have hfold : (parse_people_input people_text).foldl appendUnique [] =
        dedupFirst (parse_people_input people_text) := by
      have := foldl_appendUnique_dedup (parse_people_input people_text) []
      simpa using this
    rw [hfold]
    simp
  · intro ids lks rw0 h
    have hd := resolveLoop_dedup lookup (parse_people_input people_text) [] [] [] rfl ids lks rw0 h
    exact ⟨hd, hd ▸ nodup_dedupFirst _⟩

/-- A sample input of three UUID tokens with one duplicate. -/
def sampleUuidText : Str :=
  ("11111111-1111-1111-1111-111111111111,22222222-2222-2222-2222-222222222222," ++
   "11111111-1111-1111-1111-111111111111").data

/-- Witness for C7 at a concrete all-UUID input with a duplicate token. -/
theorem resolve_uuid_passthrough_dedup_witness :
    (∀ t ∈ parse_people_input sampleUuidText, uuidPattern t = true) ∧
    resolve_person_ids (fun _ => []) false sampleUuidText =
      (.ok (dedupFirst (parse_people_input sampleUuidText)), [],
        parse_people_input sampleUuidText) :=
  ⟨by decide, ((resolve_uuid_passthrough_dedup (fun _ => []) sampleUuidText).1 (by decide)).1⟩

lemma insertSorted_perm (x : Str) (l : List Str) : (insertSorted x l).Perm (x :: l) := by
  induction l with
  | nil => exact List.Perm.refl _
  | cons y ys ih =>
    unfold insertSorted
    by_cases h : strLe x y = true
    · rw [if_pos h]
    · rw [if_neg h]
      exact (List.Perm.cons y ih).trans (List.Perm.swap x y ys)

lemma sortStrs_perm (l : List Str) : (sortStrs l).Perm l := by
  induction l with
  | nil => exact List.Perm.refl _
  | cons a l ih =>
    have h1 : sortStrs (a :: l) = insertSorted a (sortStrs l) := rfl
    rw [h1]
    exact (insertSorted_perm a (sortStrs l)).trans (List.Perm.cons a ih)

lemma selectPerson_unfold (token : Str) (ms : List Person) :
    selectPerson token ms =
      if ms.isEmpty then .error (.personNotFound token)
      else
        match
          (if (ms.filter (fun p => normName p.name = lowerStr token)).length = 1 then
            some ((ms.filter (fun p => normName p.name = lowerStr token)).headD ⟨[], []⟩)
          else if ms.length = 1 then some (ms.headD ⟨[], []⟩)
          else none) with
        | none =>
          .error (.ambiguous token
            (sortStrs (dedupFirst ((ms.map Person.name).filter (fun n => !n.isEmpty)))))
        | some person =>
          if person.id.isEmpty then .error (.missingId token) else .ok person.id := rfl

/-- Claim C5: for a non-UUID token with a non-empty candidate list (API
person records, which carry non-empty ids): a unique case-insensitive
exact-name match is resolved even when other candidates exist; failing
that, a sole candidate is resolved; otherwise resolution fails with an
ambiguity error listing each distinct non-empty candidate name exactly
once. -/
theorem person_disambiguation (token : Str) (ms : List Person)
    (hne : ms ≠ []) (hid : ∀ p ∈ ms, p.id ≠ []) :
    (∀ p, ms.filter (fun q => normName q.name = lowerStr token) = [p] →
      selectPerson token ms = .ok p.id) ∧
    ((ms.filter (fun q => normName q.name = lowerStr token)).length ≠ 1 →
      ∀ p, ms = [p] → selectPerson token ms = .ok p.id) ∧
    ((ms.filter (fun q => normName q.name = lowerStr token)).length ≠ 1 →
      ms.length ≠ 1 →
      ∃ names, selectPerson token ms = .error (.ambiguous token names) ∧
        names.Nodup ∧
        (∀ n, n ∈ names ↔ (n ≠ [] ∧ n ∈ ms.map Person.name))) := by
  have hisE : ms.isEmpty = false := by
    cases ms with
    | nil => exact absurd rfl hne
    | cons p l => rfl
  refine ⟨?_, ?_, ?_⟩
  · intro p hp
    have hpmem : p ∈ ms := by
      have : p ∈ ms.filter (fun q => normName q.name = lowerStr token) := by
        rw [hp]; exact List.mem_cons_self p []
      exact (List.mem_filter.mp this).1
    have hpe : p.id.isEmpty = false := by
      cases hq : p.id with
      | nil => exact absurd hq (hid p hpmem)
      | cons c cs => rfl
    rw [selectPerson_unfold, if_neg (by simp [hisE]), hp]
    simp [hpe]
  · intro hlen1 p hms
    subst hms
    have hpe : p.id.isEmpty = false := by
      cases hq : p.id with
      | nil => exact absurd hq (hid p (List.mem_cons_self p []))
      | cons c cs => rfl
    rw [selectPerson_unfold, if_neg (by simp [hisE]), if_neg hlen1,
      if_pos (show ([p] : List Person).length = 1 from by simp)]
    simp [hpe]
  · intro hlen1 hlenms
    refine ⟨sortStrs (dedupFirst ((ms.map Person.name).filter (fun n => !n.isEmpty))),
      ?_, ?_, ?_⟩
    · rw [selectPerson_unfold, if_neg (by simp [hisE]), if_neg hlen1, if_neg hlenms]
    · exact ((sortStrs_perm _).nodup_iff).mpr (nodup_dedupFirst _)
    · intro n
      rw [(sortStrs_perm _).mem_iff, mem_dedupFirst, List.mem_filter]
      simp only [Bool.not_eq_eq_eq_not, Bool.not_false, List.isEmpty_iff]
      constructor
      · rintro ⟨h1, h2⟩
        exact ⟨by simpa using h2, h1⟩
      · rintro ⟨h1, h2⟩
        exact ⟨h2, by simpa using h1⟩

/-- The spec's own example: candidates "Jo" and "Jo Ann". -/
def joMatches : List Person :=
  [⟨"id1".data, "Jo".data⟩, ⟨"id2".data, "Jo Ann".data⟩]

/-- Witness for C5: token "Jo" picks the exact match "Jo", not "Jo Ann",
and raises no ambiguity. -/
theorem person_disambiguation_witness :
    selectPerson "Jo".data joMatches = .ok "id1".data :=
  (person_disambiguation "Jo".data joMatches (by decide) (by decide)).1
    ⟨"id1".data, "Jo".data⟩ (by decide)

/-- The nil UUID: accepted by the source's `UUID_PATTERN`. -/
def nilUuidStr : Str := "00000000-0000-0000-0000-000000000000".data

/-- Counterexample to C9: the nil UUID token is accepted as a literal
person identifier and passed through with no name lookup, yet it does not
match the UUID v4 textual form (its version nibble is 0, not 4). -/
theorem uuid_v4_counterexample :
    uuidPattern nilUuidStr = true ∧
    resolve_person_ids (fun _ => []) false nilUuidStr =
      (.ok [nilUuidStr], [], [nilUuidStr]) ∧
    uuidV4Form nilUuidStr = false := by
  decide

lemma uuidPattern_spec (s : Str) (h : uuidPattern s = true) :
    s.length = 36 ∧ ∀ i, i < 36 →
      ((i = 8 ∨ i = 13 ∨ i = 18 ∨ i = 23) → s.getD i ' ' = '-') ∧
      (¬(i = 8 ∨ i = 13 ∨ i = 18 ∨ i = 23) → isHexDigit (s.getD i ' ') = true) := by
  unfold uuidPattern at h
  simp only [Bool.and_eq_true, decide_eq_true_eq, List.all_eq_true, List.mem_range] at h
  obtain ⟨h1, h2⟩ := h
  refine ⟨h1, fun i hi => ?_⟩
  have hthis := h2 i hi
  by_cases hc : i = 8 ∨ i = 13 ∨ i = 18 ∨ i = 23
  · have hb : (decide (i = 8) || decide (i = 13) || decide (i = 18) || decide (i = 23)) = true := by
      simp only [Bool.or_eq_true, decide_eq_true_eq]
      tauto
    rw [if_pos hb] at hthis
    exact ⟨fun _ => by simpa using hthis, fun hn => absurd hc hn⟩
  · have hb : ¬((decide (i = 8) || decide (i = 13) || decide (i = 18) || decide (i = 23)) = true) := by
      simp only [Bool.or_eq_true, decide_eq_true_eq]
      tauto
    rw [if_neg hb] at hthis
    exact ⟨fun hd => absurd hd hc, fun _ => hthis⟩

lemma uuidPattern_chars (s : Str) (h : uuidPattern s = true) :
    ∀ c ∈ s, (isHexDigit c || c = '-') = true := by
  obtain ⟨hlen, hall⟩ := uuidPattern_spec s h
  intro c hc
  obtain ⟨i, hi, hgi⟩ := List.mem_iff_getElem.mp hc
  have hi36 : i < 36 := by omega
  have hgd : s.getD i ' ' = c := by rw [List.getD_eq_getElem s ' ' hi, hgi]
  by_cases hd : i = 8 ∨ i = 13 ∨ i = 18 ∨ i = 23
  · have := (hall i hi36).1 hd
    rw [hgd] at this
    simp [this]
  · have := (hall i hi36).2 hd
    rw [hgd] at this
    simp [this]

lemma uuidChar_facts (c : Char) (h : (isHexDigit c || c = '-') = true) :
    c ≠ ',' ∧ c ≠ '\n' ∧ c ≠ '#' ∧ isPySpace c = false := by
  refine ⟨?_, ?_, ?_, ?_⟩
  · rintro rfl; exact absurd h (by decide)
  · rintro rfl; exact absurd h (by decide)
  · rintro rfl; exact absurd h (by decide)
  · by_cases hsp : isPySpace c = true
    · exfalso
      simp only [isPySpace, Bool.or_eq_true, decide_eq_true_eq] at hsp
      rcases hsp with ((((h1 | h1) | h1) | h1) | h1) | h1 <;> subst h1 <;>
        exact absurd h (by decide)
    · simpa using hsp

lemma splitOnChar_cons (sep c : Char) (cs : Str) :
    splitOnChar sep (c :: cs) =
      if c = sep then [] :: splitOnChar sep cs
      else (c :: (splitOnChar sep cs).headD []) :: (splitOnChar sep cs).tail := rfl

lemma splitOnChar_eq_self (sep : Char) (s : Str) (h : ∀ c ∈ s, c ≠ sep) :
    splitOnChar sep s = [s] := by
  induction s with
  | nil => rfl
  | cons c cs ih =>
    rw [splitOnChar_cons, if_neg (h c (List.mem_cons_self c cs)),
      ih (fun c' hc' => h c' (List.mem_cons_of_mem _ hc'))]
    rfl

lemma splitOnChar_append_sep (sep : Char) (a b : Str) (ha : ∀ c ∈ a, c ≠ sep) :
    splitOnChar sep (a ++ sep :: b) = a :: splitOnChar sep b := by
  induction a with
  | nil => rw [List.nil_append, splitOnChar_cons, if_pos rfl]
  | cons c a' ih =>
    rw [List.cons_append, splitOnChar_cons, if_neg (ha c (List.mem_cons_self c a')),
      ih (fun c' hc' => ha c' (List.mem_cons_of_mem _ hc'))]
    rfl

lemma dropWhile_eq_self_of (p : Char → Bool) (s : Str) (h : ∀ c ∈ s, p c = false) :
    s.dropWhile p = s := by
  cases s with
  | nil => rfl
  | cons c cs =>
    rw [List.dropWhile_cons, h c (List.mem_cons_self c cs)]
    simp

lemma pyStrip_eq_self (s : Str) (h : ∀ c ∈ s, isPySpace c = false) :
    pyStrip s = s := by
  unfold pyStrip
  rw [dropWhile_eq_self_of _ _ h,
    dropWhile_eq_self_of _ _ (fun c hc => h c (by simpa using hc))]
  exact List.reverse_reverse s

lemma takeWhile_eq_self_of (p : Char → Bool) (s : Str) (h : ∀ c ∈ s, p c = true) :
    s.takeWhile p = s := by
  induction s with
  | nil => rfl
  | cons c cs ih =>
    rw [List.takeWhile_cons, if_pos (h c (List.mem_cons_self c cs)),
      ih (fun c' hc' => h c' (List.mem_cons_of_mem _ hc'))]

/-- Characters of the segment `(s.drop k).take n` of a pattern-matching
UUID string at non-dash offsets are hex digits. -/
lemma uuid_seg_hex (s : Str) (h : uuidPattern s = true) (k n : Nat) (hkn : k + n ≤ 36)
    (hnd : ∀ j, j < n → ¬(k + j = 8 ∨ k + j = 13 ∨ k + j = 18 ∨ k + j = 23)) :
    ∀ c ∈ (s.drop k).take n, isHexDigit c = true := by
  obtain ⟨hlen, hall⟩ := uuidPattern_spec s h
  intro c hc
  obtain ⟨j, hj, hgj⟩ := List.mem_iff_getElem.mp hc
  have hjn : j < n := by
    have := hj
    rw [List.length_take, List.length_drop] at this
    omega
  have hkjlen : k + j < s.length := by omega
  have hget : ((s.drop k).take n)[j] = s[k + j] := by
    rw [List.getElem_take, List.getElem_drop]
  have hhex := (hall (k + j) (by omega)).2 (hnd j hjn)
  rw [List.getD_eq_getElem s ' ' hkjlen] at hhex
  rw [← hgj, hget]
  exact hhex

lemma uuid_seg_no_dash (s : Str) (h : uuidPattern s = true) (k n : Nat) (hkn : k + n ≤ 36)
    (hnd : ∀ j, j < n → ¬(k + j = 8 ∨ k + j = 13 ∨ k + j = 18 ∨ k + j = 23)) :
    ∀ c ∈ (s.drop k).take n, c ≠ '-' := by
  intro c hc he
  have := uuid_seg_hex s h k n hkn hnd c hc
  rw [he] at this
  exact absurd this (by decide)

lemma uuid_dash_at (s : Str) (h : uuidPattern s = true) (i : Nat)
    (hd : i = 8 ∨ i = 13 ∨ i = 18 ∨ i = 23) :
    s.drop i = '-' :: s.drop (i + 1) := by
  obtain ⟨hlen, hall⟩ := uuidPattern_spec s h
  have hi : i < s.length := by omega
  rw [List.drop_eq_getElem_cons hi]
  have hdash := (hall i (by omega)).1 hd
  rw [List.getD_eq_getElem s ' ' hi] at hdash
  rw [hdash]

/-- The split of a pattern-matching UUID string at its dashes. -/
lemma uuid_split (s : Str) (h : uuidPattern s = true) :
    splitOnChar '-' s =
      [s.take 8, (s.drop 9).take 4, (s.drop 14).take 4, (s.drop 19).take 4, s.drop 24] := by
  have hlen : s.length = 36 := (uuidPattern_spec s h).1
  have hs0 : s = s.take 8 ++ '-' :: s.drop 9 := by
    conv_lhs => rw [← List.take_append_drop 8 s]
    rw [uuid_dash_at s h 8 (by tauto)]
  have hseg0 : ∀ c ∈ s.take 8, c ≠ '-' := by
    have := uuid_seg_no_dash s h 0 8 (by omega) (by omega)
    simpa using this
  have hs9 : s.drop 9 = (s.drop 9).take 4 ++ '-' :: s.drop 14 := by
    conv_lhs => rw [← List.take_append_drop 4 (s.drop 9)]
    rw [List.drop_drop]
    rw [show (9 + 4 : Nat) = 13 from rfl, uuid_dash_at s h 13 (by tauto)]
  have hseg1 : ∀ c ∈ (s.drop 9).take 4, c ≠ '-' :=
    uuid_seg_no_dash s h 9 4 (by omega) (by omega)
  have hs14 : s.drop 14 = (s.drop 14).take 4 ++ '-' :: s.drop 19 := by
    conv_lhs => rw [← List.take_append_drop 4 (s.drop 14)]
    rw [List.drop_drop]
    rw [show (14 + 4 : Nat) = 18 from rfl, uuid_dash_at s h 18 (by tauto)]
  have hseg2 : ∀ c ∈ (s.drop 14).take 4, c ≠ '-' :=
    uuid_seg_no_dash s h 14 4 (by omega) (by omega)
  have hs19 : s.drop 19 = (s.drop 19).take 4 ++ '-' :: s.drop 24 := by
    conv_lhs => rw [← List.take_append_drop 4 (s.drop 19)]
    rw [List.drop_drop]
    rw [show (19 + 4 : Nat) = 23 from rfl, uuid_dash_at s h 23 (by tauto)]
  have hseg3 : ∀ c ∈ (s.drop 19).take 4, c ≠ '-' :=
    uuid_seg_no_dash s h 19 4 (by omega) (by omega)
  have hseg4 : ∀ c ∈ s.drop 24, c ≠ '-' := by
    have h1 : s.drop 24 = (s.drop 24).take 12 := by
      rw [List.take_of_length_le]
      rw [List.length_drop]
      omega
    rw [h1]
    exact uuid_seg_no_dash s h 24 12 (by omega) (by omega)
  conv_lhs => rw [hs0]
  rw [splitOnChar_append_sep '-' _ _ hseg0]
  conv_lhs => rw [hs9]
  rw [splitOnChar_append_sep '-' _ _ hseg1]
  conv_lhs => rw [hs14]
  rw [splitOnChar_append_sep '-' _ _ hseg2]
  conv_lhs => rw [hs19]
  rw [splitOnChar_append_sep '-' _ _ hseg3]
  rw [splitOnChar_eq_self '-' _ hseg4]

lemma uuidPattern_imp_textual (s : Str) (h : uuidPattern s = true) :
    uuidTextualForm s = true := by
  have hlen : s.length = 36 := (uuidPattern_spec s h).1
  unfold uuidTextualForm
  rw [uuid_split s h]
  simp only [Bool.and_eq_true, decide_eq_true_eq, List.all_eq_true, List.map_cons, List.map_nil]
  constructor
  · simp [List.length_take, List.length_drop, hlen]
  · intro g hg
    have seg0 := uuid_seg_hex s h 0 8 (by omega) (by omega)
    have seg1 := uuid_seg_hex s h 9 4 (by omega) (by omega)
    have seg2 := uuid_seg_hex s h 14 4 (by omega) (by omega)
    have seg3 := uuid_seg_hex s h 19 4 (by omega) (by omega)
    have seg4 := uuid_seg_hex s h 24 12 (by omega) (by omega)
    have hd24 : s.drop 24 = (s.drop 24).take 12 := by
      rw [List.take_of_length_le]
      rw [List.length_drop]
      omega
    simp only [List.mem_cons, List.not_mem_nil, or_false] at hg
    rcases hg with rfl | rfl | rfl | rfl | rfl
    · simpa using seg0
    · exact seg1
    · exact seg2
    · exact seg3
    · rw [hd24]
      exact seg4

lemma uuidPrefix36_self (s : Str) (h : uuidPattern s = true) :
    uuidPrefix36 s = some s := by
  have hlen : s.length = 36 := (uuidPattern_spec s h).1
  have hchars := uuidPattern_chars s h
  unfold uuidPrefix36
  rw [List.take_of_length_le (by omega)]
  rw [if_pos]
  simp only [Bool.and_eq_true, decide_eq_true_eq, List.all_eq_true]
  exact ⟨hlen, hchars⟩

lemma parse_single_uuid (s : Str) (h : uuidPattern s = true) :
    parse_people_input s = [s] := by
  have hchars := uuidPattern_chars s h
  have hlen : s.length = 36 := (uuidPattern_spec s h).1
  have hfacts : ∀ c ∈ s, c ≠ ',' ∧ c ≠ '\n' ∧ c ≠ '#' ∧ isPySpace c = false :=
    fun c hc => uuidChar_facts c (hchars c hc)
  have hne : s ≠ [] := by
    intro he
    rw [he] at hlen
    simp at hlen
  have hnemp : ¬(s.isEmpty = true) := by simpa [List.isEmpty_iff] using hne
  have hmap : s.map (fun c => if c = '\n' then ',' else c) = s := by
    conv_rhs => rw [← List.map_id s]
    exact List.map_congr_left (fun c hc => by rw [if_neg (hfacts c hc).2.1]; rfl)
  have hstrip : pyStrip s = s := pyStrip_eq_self s (fun c hc => (hfacts c hc).2.2.2)
  have htake : s.takeWhile (fun c => c ≠ '#') = s :=
    takeWhile_eq_self_of _ s (fun c hc => by simpa using (hfacts c hc).2.2.1)
  unfold parse_people_input
  dsimp only
  rw [hmap, splitOnChar_eq_self ',' s (fun c hc => (hfacts c hc).1)]
  simp only [List.map_cons, List.map_nil, hstrip, List.foldr_cons, List.foldr_nil]
  rw [if_neg hnemp, htake, hstrip]
  rw [if_neg hnemp, uuidPrefix36_self s h]
  dsimp only
  rw [if_pos h]

/-- Amended claim C9: every token accepted as a literal person identifier
(its leading 36 characters matching the source's UUID regex) matches the
general UUID textual form — five dash-separated hex groups of sizes
8-4-4-4-12 — and is passed through by resolution unchanged with no name
lookup; but the version and variant nibbles are unconstrained, so such a
token need not match the UUID v4 textual form (see the counterexample). -/
theorem uuid_passthrough_textual_form (s : Str) (h : uuidPattern s = true) :
    uuidTextualForm s = true ∧
    parse_people_input s = [s] ∧
    ∀ lookup : Str → List Person,
      resolve_person_ids lookup false s = (.ok [s], [], [s]) := by
  refine ⟨uuidPattern_imp_textual s h, parse_single_uuid s h, fun lookup => ?_⟩
  unfold resolve_person_ids
  rw [parse_single_uuid s h, resolveLoop_cons, if_pos h]
  simp [resolveLoop, appendUnique]

/-- Witness for the amended C9 at a concrete v4-shaped UUID token. -/
theorem uuid_passthrough_textual_form_witness :
    uuidTextualForm "12345678-1234-4234-a234-123456789abc".data = true ∧
    resolve_person_ids (fun _ => []) false "12345678-1234-4234-a234-123456789abc".data =
      (.ok ["12345678-1234-4234-a234-123456789abc".data], [],
        ["12345678-1234-4234-a234-123456789abc".data]) :=
  ⟨(uuid_passthrough_textual_form "12345678-1234-4234-a234-123456789abc".data (by decide)).1,
   (uuid_passthrough_textual_form "12345678-1234-4234-a234-123456789abc".data (by decide)).2.2
     (fun _ => [])⟩

/-
Filter compositor: the payload built per page by
`search_assets_by_date_range` (lines 313–321) and the `personIds`
extraction and merge of `run_search` (lines 544–569).  JSON values are
`JVal`; a JSON object is a key-valued partial map (Python dict; insertion
order is irrelevant to these claims).
-/

inductive JVal where
  | b (v : Bool)
  | s (v : Str)
  | n (v : Int)
  | arr (l : List JVal)

abbrev JObj := String → Option JVal

/-- Python `d.update(other)`: keys of `other` win. -/
def dictUpdate (d other : JObj) : JObj := fun k => (other k).orElse (fun _ => d k)

def reservedKeys : List String := ["takenAfter", "takenBefore", "size", "page"]

/-- The request payload of each page of `search_assets_by_date_range`:
`{"withDeleted": False}`, updated with the caller's filters, then updated
with the engine-controlled window and paging keys. -/
def build_search_payload (additional_filters : JObj) (takenAfter takenBefore : Str)
    (size page : Int) : JObj :=
  dictUpdate
    (dictUpdate (fun k => if k = "withDeleted" then some (.b false) else none)
      additional_filters)
    (fun k =>
      if k = "takenAfter" then some (.s takenAfter)
      else if k = "takenBefore" then some (.s takenBefore)
      else if k = "size" then some (.n size)
      else if k = "page" then some (.n page)
      else none)

/-- `additional_filters.pop("personIds", None)` of `run_search`: the
filters without the key, and the extracted value. -/
def popPersonIds (af : JObj) : JObj × Option JVal :=
  (fun k => if k = "personIds" then none else af k, af "personIds")

/-- The elementwise string extraction behind the lines 549–552 check that
`personIds` is a list of strings. -/
def asStrList : List JVal → Option (List Str)
  | [] => some []
  | .s v :: rest => (asStrList rest).map (fun l => v :: l)
  | _ :: _ => none

/-- Lines 547–552: a missing `personIds` contributes no ids; a list of
strings contributes them; anything else is an input error aborting the
run. -/
def personIdsFromFilters : Option JVal → Except Unit (List Str)
  | none => .ok []
  | some (.arr l) =>
    match asStrList l with
    | some ids => .ok ids
    | none => .error ()
  | some _ => .error ()

/-- Lines 553–569: filter-supplied ids first, then the ids resolved from
the people text, deduplicated by the shared `seen` set keeping first
occurrences; computed once per run before any task loop. -/
def combinePersonIds (fromFilters resolvedIds : List Str) : List Str :=
  (fromFilters ++ resolvedIds).foldl appendUnique []

/-- `filters["personIds"] = [person_id]` of the per-person sub-searches
(lines 475, 484, 495). -/
def setPersonIds (af : JObj) (pid : Str) : JObj :=
  fun k => if k = "personIds" then some (.arr [.s pid]) else af k

lemma mem_appendUnique {α : Type} [DecidableEq α] (acc : List α) (a x : α) :
    x ∈ appendUnique acc a ↔ x ∈ acc ∨ x = a := by
  unfold appendUnique
  by_cases h : a ∈ acc
  · rw [if_pos h]
    constructor
    · exact fun hx => Or.inl hx
    · rintro (hx | rfl)
      · exact hx
      · exact h
  · rw [if_neg h]
    simp

lemma mem_foldl_appendUnique {α : Type} [DecidableEq α] (l : List α) :
    ∀ (acc : List α) (x : α), x ∈ l.foldl appendUnique acc ↔ x ∈ acc ∨ x ∈ l := by
  induction l with
  | nil => simp
  | cons a l ih =>
    intro acc x
    rw [List.foldl_cons, ih, mem_appendUnique]
    simp only [List.mem_cons]
    tauto

/-- Claim C6: the metadata-search payload always carries the
engine-computed values at the four reserved keys, overwriting any
caller-supplied value; every other caller-supplied key is forwarded
unchanged; a caller `personIds` entry is removed from the filters before
composition and merged (deduplicated, first-seen order) with the resolved
person ids, while each sub-search injects exactly its own single person
id. -/
theorem filter_compositor_spec (af : JObj) (ta tb : Str) (size page : Int)
    (fromFilters resolvedIds : List Str) :
    build_search_payload af ta tb size page "takenAfter" = some (.s ta) ∧
    build_search_payload af ta tb size page "takenBefore" = some (.s tb) ∧
    build_search_payload af ta tb size page "size" = some (.n size) ∧
    build_search_payload af ta tb size page "page" = some (.n page) ∧
    (∀ k v, k ∉ reservedKeys → af k = some v →
      build_search_payload af ta tb size page k = some v) ∧
    (popPersonIds af).1 "personIds" = none ∧
    (∀ k, k ≠ "personIds" → (popPersonIds af).1 k = af k) ∧
    combinePersonIds fromFilters resolvedIds = dedupFirst (fromFilters ++ resolvedIds) ∧
    (combinePersonIds fromFilters resolvedIds).Nodup ∧
    (∀ x, x ∈ combinePersonIds fromFilters resolvedIds ↔
      x ∈ fromFilters ∨ x ∈ resolvedIds) ∧
    (∀ pid, setPersonIds af pid "personIds" = some (.arr [.s pid])) ∧
    (∀ pid k, k ≠ "personIds" → setPersonIds af pid k = af k) := by
  have hcomb : combinePersonIds fromFilters resolvedIds =
      dedupFirst (fromFilters ++ resolvedIds) := by
    unfold combinePersonIds
    have := foldl_appendUnique_dedup (fromFilters ++ resolvedIds) ([] : List Str)
    simpa using this
  refine ⟨rfl, rfl, rfl, rfl, ?_, rfl, ?_, hcomb, ?_, ?_, fun pid => rfl, ?_⟩
  · intro k v hk hv
    simp only [reservedKeys, List.mem_cons, List.not_mem_nil, or_false, not_or] at hk
    obtain ⟨h1, h2, h3, h4⟩ := hk
    unfold build_search_payload dictUpdate
    dsimp only
    rw [if_neg h1, if_neg h2, if_neg h3, if_neg h4, hv]
    rfl
  · intro k hk
    unfold popPersonIds
    dsimp only
    rw [if_neg hk]
  · rw [hcomb]
    exact nodup_dedupFirst _
  · intro x
    rw [hcomb, mem_dedupFirst]
    exact List.mem_append
  · intro pid k hk
    unfold setPersonIds
    rw [if_neg hk]

/-- A concrete filter object for the C6 witness. -/
def sampleFilters : JObj := fun k =>
  if k = "city" then some (.s "Boston".data)
  else if k = "takenAfter" then some (.s "caller".data)
  else if k = "personIds" then some (.arr [.s "p0".data])
  else none

/-- Witness for C6 at concrete inputs: the caller's `takenAfter` is
overwritten, `city` is forwarded, `personIds` is stripped, and the merge
deduplicates keeping first-seen order. -/
theorem filter_compositor_spec_witness :
    build_search_payload sampleFilters "A".data "B".data 100 1 "takenAfter" =
      some (.s "A".data) ∧
    build_search_payload sampleFilters "A".data "B".data 100 1 "city" =
      some (.s "Boston".data) ∧
    (popPersonIds sampleFilters).1 "personIds" = none ∧
    combinePersonIds ["x".data, "y".data] ["y".data, "z".data] =
      dedupFirst (["x".data, "y".data] ++ ["y".data, "z".data]) := by
  have h := filter_compositor_spec sampleFilters "A".data "B".data 100 1
    ["x".data, "y".data] ["y".data, "z".data]
  exact ⟨h.1, h.2.2.2.2.1 "city" (.s "Boston".data) (by decide) rfl,
    h.2.2.2.2.2.1, h.2.2.2.2.2.2.2.1⟩

/-
Asset search client and orchestrator model.  Network interactions are
events in a trace; the cancellation flag `stopF` is sampled at poll
index `k`, incremented at every poll exactly where the source calls
`stop_event.is_set()`.  The metadata-search server is the deterministic
oracle `pages`, keyed by the person filter injected into the query (the
window and base filters of one run are fixed inside the oracle); a search
stops at the first page that is empty or shorter than the page size
(100), exactly as in `search_assets_by_date_range`.
-/

inductive NetTag where
  | albumsList
  | albumsCreate
  | searchPage
  | attach
deriving DecidableEq

inductive Ev where
  | net (tag : NetTag)
  | check (result : Bool)
  | cancelled
  | completed
  | failed
deriving DecidableEq

structure SearchEnv where
  stopF : Nat → Bool
  pages : Option Str → List (List Str)

/-- The page loop of `search_assets_by_date_range`: poll the flag (an
observed flag aborts with an empty result), issue one POST, extend the
accumulator, stop on an empty or short page.  Returns the collected ids,
the next poll index and the event trace. -/
def searchLoop (env : SearchEnv) : List (List Str) → Nat → List Str →
    List Str × Nat × List Ev
  | [], k, acc =>
    if env.stopF k then ([], k + 1, [.check true])
    else (acc, k + 1, [.check false, .net .searchPage])
  | page :: rest, k, acc =>
    if env.stopF k then ([], k + 1, [.check true])
    else if page.isEmpty then (acc, k + 1, [.check false, .net .searchPage])
    else if page.length < 100 then (acc ++ page, k + 1, [.check false, .net .searchPage])
    else
      let r := searchLoop env rest (k + 1) (acc ++ page)
      (r.1, r.2.1, .check false :: .net .searchPage :: r.2.2)

/-- `search_assets_by_date_range` for the query with person filter `q`. -/
def search_assets_by_date_range (env : SearchEnv) (q : Option Str) (k : Nat) :
    List Str × Nat × List Ev :=
  searchLoop env (env.pages q) k []

/-- The AND-mode loop of `search_assets_for_date_range`: per person, poll
the flag (abort whole composite with `[]` when set), run a full search,
intersect.  `inter` is the source's `intersection` (`None` before the
first sub-search); sets are lists up to membership. -/
def compositeAllLoop (env : SearchEnv) : List Str → Nat → Option (List Str) →
    List Str × Nat × List Ev
  | [], k, inter => (inter.getD [], k, [])
  | p :: rest, k, inter =>
    if env.stopF k then ([], k + 1, [.check true])
    else
      let r := search_assets_by_date_range env (some p) (k + 1)
      let found := dedupFirst r.1
      let inter' : Option (List Str) :=
        some (match inter with
          | none => found
          | some cur => cur.filter (fun x => x ∈ found))
      let r2 := compositeAllLoop env rest r.2.1 inter'
      (r2.1, r2.2.1, .check false :: (r.2.2 ++ r2.2.2))

/-- The OR-mode loop of `search_assets_for_date_range`: per person, poll
the flag (abort whole composite with `[]` when set), run a full search,
accumulate the union. -/
def compositeAnyLoop (env : SearchEnv) : List Str → Nat → List Str →
    List Str × Nat × List Ev
  | [], k, acc => (acc, k, [])
  | p :: rest, k, acc =>
    if env.stopF k then ([], k + 1, [.check true])
    else
      let r := search_assets_by_date_range env (some p) (k + 1)
      let r2 := compositeAnyLoop env rest r.2.1 (r.1.foldl appendUnique acc)
      (r2.1, r2.2.1, .check false :: (r.2.2 ++ r2.2.2))

/-- `search_assets_for_date_range`: poll the flag, then dispatch on the
person-id count and the match mode exactly as the source does (any string
other than "all" takes the OR branch). -/
def search_assets_for_date_range (env : SearchEnv) (person_ids : List Str)
    (mode : String) (k : Nat) : List Str × Nat × List Ev :=
  if env.stopF k then ([], k + 1, [.check true])
  else
    match person_ids with
    | [] =>
      let r := search_assets_by_date_range env none (k + 1)
      (r.1, r.2.1, .check false :: r.2.2)
    | [p] =>
      let r := search_assets_by_date_range env (some p) (k + 1)
      (r.1, r.2.1, .check false :: r.2.2)
    | _ =>
      if mode = "all" then
        let r := compositeAllLoop env person_ids (k + 1) none
        (r.1, r.2.1, .check false :: r.2.2)
      else
        let r := compositeAnyLoop env person_ids (k + 1) []
        (r.1, r.2.1, .check false :: r.2.2)

/-- The never-set cancellation flag. -/
def noStop : Nat → Bool := fun _ => false

/-- The full (uncancelled) result of one per-person search: what
`resultsFor(p)` denotes in the spec. -/
def fullSearch (pages : Option Str → List (List Str)) (q : Option Str) : List Str :=
  (search_assets_by_date_range ⟨noStop, pages⟩ q 0).1

lemma env_noStop_check (pages : Option Str → List (List Str)) (k : Nat) :
    ¬((⟨noStop, pages⟩ : SearchEnv).stopF k = true) := by
  simp [noStop]

lemma searchLoop_noStop_k (pages : Option Str → List (List Str))
    (ps : List (List Str)) : ∀ k k' acc,
    (searchLoop ⟨noStop, pages⟩ ps k acc).1 = (searchLoop ⟨noStop, pages⟩ ps k' acc).1 := by
  induction ps with
  | nil =>
    intro k k' acc
    rfl
  | cons page rest ih =>
    intro k k' acc
    unfold searchLoop
    rw [if_neg (env_noStop_check pages k), if_neg (env_noStop_check pages k')]
    by_cases h1 : page.isEmpty = true
    · rw [if_pos h1, if_pos h1]
    · rw [if_neg h1, if_neg h1]
      by_cases h2 : page.length < 100
      · rw [if_pos h2, if_pos h2]
      · rw [if_neg h2, if_neg h2]
        dsimp only
        exact ih (k + 1) (k' + 1) (acc ++ page)

lemma search_by_range_noStop_k (pages : Option Str → List (List Str))
    (q : Option Str) (k : Nat) :
    (search_assets_by_date_range ⟨noStop, pages⟩ q k).1 = fullSearch pages q :=
  searchLoop_noStop_k pages (pages q) k 0 []

lemma compositeAnyLoop_mem (pages : Option Str → List (List Str)) (ids : List Str) :
    ∀ k acc x, x ∈ (compositeAnyLoop ⟨noStop, pages⟩ ids k acc).1 ↔
      x ∈ acc ∨ ∃ p ∈ ids, x ∈ fullSearch pages (some p) := by
  induction ids with
  | nil => intro k acc x; simp [compositeAnyLoop]
  | cons p rest ih =>
    intro k acc x
    unfold compositeAnyLoop
    rw [if_neg (env_noStop_check pages k)]
    dsimp only
    rw [ih, mem_foldl_appendUnique, search_by_range_noStop_k]
    simp only [List.mem_cons]
    constructor
    · rintro ((hx | hx) | ⟨q, hq, hx⟩)
      · exact Or.inl hx
      · exact Or.inr ⟨p, Or.inl rfl, hx⟩
      · exact Or.inr ⟨q, Or.inr hq, hx⟩
    · rintro (hx | ⟨q, hq | hq, hx⟩)
      · exact Or.inl (Or.inl hx)
      · subst hq
        exact Or.inl (Or.inr hx)
      · exact Or.inr ⟨q, hq, hx⟩

lemma compositeAllLoop_some_mem (pages : Option Str → List (List Str)) (ids : List Str) :
    ∀ k cur x, x ∈ (compositeAllLoop ⟨noStop, pages⟩ ids k (some cur)).1 ↔
      x ∈ cur ∧ ∀ p ∈ ids, x ∈ fullSearch pages (some p) := by
  induction ids with
  | nil => intro k cur x; simp [compositeAllLoop, Option.getD]
  | cons p rest ih =>
    intro k cur x
    unfold compositeAllLoop
    rw [if_neg (env_noStop_check pages k)]
    dsimp only
    rw [ih, List.mem_filter]
    simp only [decide_eq_true_eq, mem_dedupFirst, search_by_range_noStop_k,
      List.mem_cons]
    constructor
    · rintro ⟨⟨hc, hf⟩, hall⟩
      refine ⟨hc, fun q hq => ?_⟩
      rcases hq with rfl | hq
      · exact hf
      · exact hall q hq
    · rintro ⟨hc, hall⟩
      exact ⟨⟨hc, hall p (Or.inl rfl)⟩, fun q hq => hall q (Or.inr hq)⟩

lemma compositeAllLoop_none_mem (pages : Option Str → List (List Str))
    (p : Str) (rest : List Str) (k : Nat) (x : Str) :
    x ∈ (compositeAllLoop ⟨noStop, pages⟩ (p :: rest) k none).1 ↔
      ∀ q ∈ p :: rest, x ∈ fullSearch pages (some q) := by
  unfold compositeAllLoop
  rw [if_neg (env_noStop_check pages k)]
  dsimp only
  rw [compositeAllLoop_some_mem]
  simp only [mem_dedupFirst, search_by_range_noStop_k, List.mem_cons]
  constructor
  · rintro ⟨hf, hall⟩ q hq
    rcases hq with rfl | hq
    · exact hf
    · exact hall q hq
  · intro hall
    exact ⟨hall p (Or.inl rfl), fun q hq => hall q (Or.inr hq)⟩

lemma search_for_range_two (env : SearchEnv) (p1 p2 : Str) (rest : List Str)
    (mode : String) (k : Nat) (hstop : env.stopF k = false) :
    search_assets_for_date_range env (p1 :: p2 :: rest) mode k =
      (if mode = "all" then
        ((compositeAllLoop env (p1 :: p2 :: rest) (k + 1) none).1,
         (compositeAllLoop env (p1 :: p2 :: rest) (k + 1) none).2.1,
         .check false :: (compositeAllLoop env (p1 :: p2 :: rest) (k + 1) none).2.2)
      else
        ((compositeAnyLoop env (p1 :: p2 :: rest) (k + 1) []).1,
         (compositeAnyLoop env (p1 :: p2 :: rest) (k + 1) []).2.1,
         .check false :: (compositeAnyLoop env (p1 :: p2 :: rest) (k + 1) []).2.2)) := by
  unfold search_assets_for_date_range
  rw [if_neg (by simp [hstop])]

lemma search_any_mem (pages : Option Str → List (List Str)) (ids : List Str)
    (k : Nat) (h2 : 2 ≤ ids.length) (x : Str) :
    x ∈ (search_assets_for_date_range ⟨noStop, pages⟩ ids "any" k).1 ↔
      ∃ p ∈ ids, x ∈ fullSearch pages (some p) := by
  match ids, h2 with
  | p1 :: p2 :: rest, _ =>
    rw [search_for_range_two ⟨noStop, pages⟩ p1 p2 rest "any" k rfl,
      if_neg (by decide : ¬("any" : String) = "all")]
    dsimp only
    rw [compositeAnyLoop_mem]
    simp

lemma search_all_mem (pages : Option Str → List (List Str)) (ids : List Str)
    (k : Nat) (h2 : 2 ≤ ids.length) (x : Str) :
    x ∈ (search_assets_for_date_range ⟨noStop, pages⟩ ids "all" k).1 ↔
      ∀ p ∈ ids, x ∈ fullSearch pages (some p) := by
  match ids, h2 with
  | p1 :: p2 :: rest, _ =>
    rw [search_for_range_two ⟨noStop, pages⟩ p1 p2 rest "all" k rfl,
      if_pos (rfl : ("all" : String) = "all")]
    dsimp only
    rw [compositeAllLoop_none_mem]

/-- Claim C3: with two or more person ids and no cancellation, the
composite search in mode "any" returns, as a set, exactly the union of
the per-person full search results, and in mode "all" exactly their
intersection; both results are invariant as sets under permutation of the
person-id list; and an empty intersection yields an empty result, not an
error. -/
theorem search_composition_modes (pages : Option Str → List (List Str))
    (person_ids : List Str) (k : Nat) (h2 : 2 ≤ person_ids.length) :
    (∀ x, x ∈ (search_assets_for_date_range ⟨noStop, pages⟩ person_ids "any" k).1 ↔
      ∃ p ∈ person_ids, x ∈ fullSearch pages (some p)) ∧
    (∀ x, x ∈ (search_assets_for_date_range ⟨noStop, pages⟩ person_ids "all" k).1 ↔
      ∀ p ∈ person_ids, x ∈ fullSearch pages (some p)) ∧
    (∀ ids2 k2, person_ids.Perm ids2 → ∀ x,
      (x ∈ (search_assets_for_date_range ⟨noStop, pages⟩ ids2 "any" k2).1 ↔
        x ∈ (search_assets_for_date_range ⟨noStop, pages⟩ person_ids "any" k).1) ∧
      (x ∈ (search_assets_for_date_range ⟨noStop, pages⟩ ids2 "all" k2).1 ↔
        x ∈ (search_assets_for_date_range ⟨noStop, pages⟩ person_ids "all" k).1)) ∧
    ((∀ x, ¬ ∀ p ∈ person_ids, x ∈ fullSearch pages (some p)) →
      (search_assets_for_date_range ⟨noStop, pages⟩ person_ids "all" k).1 = []) := by
  refine ⟨search_any_mem pages person_ids k h2, search_all_mem pages person_ids k h2,
    ?_, ?_⟩
  · intro ids2 k2 hperm x
    have h2' : 2 ≤ ids2.length := hperm.length_eq ▸ h2
    constructor
    · rw [search_any_mem pages ids2 k2 h2' x, search_any_mem pages person_ids k h2 x]
      constructor
      · rintro ⟨p, hp, hx⟩
        exact ⟨p, hperm.mem_iff.mpr hp, hx⟩
      · rintro ⟨p, hp, hx⟩
        exact ⟨p, hperm.mem_iff.mp hp, hx⟩
    · rw [search_all_mem pages ids2 k2 h2' x, search_all_mem pages person_ids k h2 x]
      constructor
      · intro hall p hp
        exact hall p (hperm.mem_iff.mp hp)
      · intro hall p hp
        exact hall p (hperm.mem_iff.mpr hp)
  · intro hempty
    rw [List.eq_nil_iff_forall_not_mem]
    intro x hx
    exact hempty x ((search_all_mem pages person_ids k h2 x).mp hx)

/-- A two-person oracle for the C3 witness: person A's search returns
assets 1 and 2, person B's returns assets 2 and 3. -/
def samplePages : Option Str → List (List Str) := fun q =>
  if q = some "A".data then [["x1".data, "x2".data]]
  else if q = some "B".data then [["x2".data, "x3".data]]
  else []

/-- Witness for C3 at the two-person oracle: asset 2 is in both the union
and the intersection; asset 1 is in the union but not the intersection. -/
theorem search_composition_modes_witness :
    (("x2".data ∈ (search_assets_for_date_range ⟨noStop, samplePages⟩
        ["A".data, "B".data] "all" 0).1) ↔
      ∀ p ∈ ["A".data, "B".data], "x2".data ∈ fullSearch samplePages (some p)) ∧
    (("x1".data ∈ (search_assets_for_date_range ⟨noStop, samplePages⟩
        ["A".data, "B".data] "any" 0).1) ↔
      ∃ p ∈ ["A".data, "B".data], "x1".data ∈ fullSearch samplePages (some p)) :=
  ⟨((search_composition_modes samplePages ["A".data, "B".data] 0 (by decide)).2.1
      "x2".data),
   ((search_composition_modes samplePages ["A".data, "B".data] 0 (by decide)).1
      "x1".data)⟩

/-
Orchestrator (`run_search`, holiday targets).  The model covers runs
whose selected items are holiday targets (no "Specific Date" entry) with
valid configuration and filters, the path the C4 sources quantify over;
`years` is the expanded `range(start_year, end_year + 1)`.  Oracles:
`albumExists` stands for the album-list lookup of `find_or_create_album`,
`pages` for the metadata search.  The run emits the status events the
source emits ("Operation Cancelled", the completion message, the
error-status message of the outer `except`) plus one event per network
request and per cancellation poll.
-/

structure RunEnv where
  stopF : Nat → Bool
  pages : Option Str → List (List Str)
  albumExists : String → Bool

inductive Outcome where
  | completed
  | cancelled
  | failed
deriving DecidableEq

/-- `find_or_create_album`: one albums GET, plus an album-create POST when
no album of that name exists; no cancellation poll. -/
def find_or_create_album (albumExists : String → Bool) (album_name : String) : List Ev :=
  .net .albumsList :: (if albumExists album_name then [] else [.net .albumsCreate])

/-- `add_assets_to_album`: a no-op on an empty id list, else one bulk
PUT; no cancellation poll. -/
def add_assets_to_album (asset_ids : List Str) : List Ev :=
  if asset_ids.isEmpty then [] else [.net .attach]

/-- The per-year task loop of `run_search` for one holiday: poll the flag
at the task boundary (set → status "Operation Cancelled" and stop),
resolve the holiday date (an unknown name raises, caught by the outer
`except` as a Failed run), search, attach.  Returns the events, the next
poll index, and `some outcome` when the run ended inside the loop. -/
def runYears (env : RunEnv) (holiday_name : String) (person_ids : List Str)
    (mode : String) : List Nat → Nat → (List Ev × Nat) × Option Outcome
  | [], k => (([], k), none)
  | y :: rest, k =>
    if env.stopF k then (([.check true, .cancelled], k + 1), some .cancelled)
    else
      match get_holiday_date y holiday_name with
      | .error _ => (([.check false, .failed], k + 1), some .failed)
      | .ok _ =>
        let r := search_assets_for_date_range ⟨env.stopF, env.pages⟩ person_ids mode (k + 1)
        let att := add_assets_to_album r.1
        let r2 := runYears env holiday_name person_ids mode rest r.2.1
        ((.check false :: (r.2.2 ++ att ++ r2.1.1), r2.1.2), r2.2)

/-- The holiday loop of `run_search`: per target, the album is looked up
or created (with no preceding flag poll), then every year is processed;
completion of all targets reports the Completed status. -/
def runHolidays (env : RunEnv) (person_ids : List Str) (mode : String) :
    List (String × String) → List Nat → Nat → List Ev × Outcome
  | [], _, _ => ([.completed], .completed)
  | (holiday_name, album_name) :: rest, years, k =>
    let alb := find_or_create_album env.albumExists album_name
    let ry := runYears env holiday_name person_ids mode years k
    match ry.2 with
    | some o => (alb ++ ry.1.1, o)
    | none =>
      let r2 := runHolidays env person_ids mode rest years ry.1.2
      (alb ++ ry.1.1 ++ r2.1, r2.2)

/-- `run_search` over holiday targets: the person ids are merged once,
before any task, from the filter-supplied and resolved ids; then the
target × year matrix is processed.  `stopF` is the flag schedule after
the initial `stop_event.clear()`. -/
def run_search (env : RunEnv) (items : List (String × String)) (years : List Nat)
    (filters_person_ids resolved_ids : List Str) (mode : String) : List Ev × Outcome :=
  runHolidays env (combinePersonIds filters_person_ids resolved_ids) mode items years 0

/-- Counterexample to C4: with the cancellation flag set from the very
start of the run (immediately after `stop_event.clear()`), the
orchestrator still issues the albums-list request of
`find_or_create_album` before the first flag poll — the flag is not
checked before every network call. -/
theorem cancellation_counterexample :
    run_search ⟨fun _ => true, fun _ => [], fun _ => true⟩
        [("Christmas", "Christmas")] [2024] [] [] "any" =
      ([.net .albumsList, .check true, .cancelled], .cancelled) := by
  decide

/-- Events the search client can emit: cancellation polls and network
requests only — never a status event. -/
def isCheckOrNet : Ev → Bool
  | .check _ => true
  | .net _ => true
  | _ => false

lemma searchLoop_evs (env : SearchEnv) (ps : List (List Str)) :
    ∀ k acc, ∀ e ∈ (searchLoop env ps k acc).2.2, isCheckOrNet e = true := by
  induction ps with
  | nil =>
    intro k acc e he
    unfold searchLoop at he
    by_cases hs : env.stopF k = true
    · rw [if_pos hs] at he
      simp only [List.mem_singleton] at he
      subst he
      rfl
    · rw [if_neg hs] at he
      simp only [List.mem_cons, List.not_mem_nil, or_false] at he
      rcases he with rfl | rfl <;> rfl
  | cons page rest ih =>
    intro k acc e he
    unfold searchLoop at he
    by_cases hs : env.stopF k = true
    · rw [if_pos hs] at he
      simp only [List.mem_singleton] at he
      subst he
      rfl
    · rw [if_neg hs] at he
      by_cases h1 : page.isEmpty = true
      · rw [if_pos h1] at he
        simp only [List.mem_cons, List.not_mem_nil, or_false] at he
        rcases he with rfl | rfl <;> rfl
      · rw [if_neg h1] at he
        by_cases h2 : page.length < 100
        · rw [if_pos h2] at he
          simp only [List.mem_cons, List.not_mem_nil, or_false] at he
          rcases he with rfl | rfl <;> rfl
        · rw [if_neg h2] at he
          dsimp only at he
          simp only [List.mem_cons] at he
          rcases he with rfl | rfl | hm
          · rfl
          · rfl
          · exact ih (k + 1) (acc ++ page) e hm

lemma compositeAllLoop_evs (env : SearchEnv) (ids : List Str) :
    ∀ k inter, ∀ e ∈ (compositeAllLoop env ids k inter).2.2, isCheckOrNet e = true := by
  induction ids with
  | nil =>
    intro k inter e he
    simp [compositeAllLoop] at he
  | cons p rest ih =>
    intro k inter e he
    unfold compositeAllLoop at he
    by_cases hs : env.stopF k = true
    · rw [if_pos hs] at he
      simp only [List.mem_singleton] at he
      subst he
      rfl
    · rw [if_neg hs] at he
      dsimp only at he
      simp only [List.mem_cons, List.mem_append] at he
      rcases he with rfl | hm | hm
      · rfl
      · exact searchLoop_evs env (env.pages (some p)) (k + 1) [] e hm
      · exact ih _ _ e hm

lemma compositeAnyLoop_evs (env : SearchEnv) (ids : List Str) :
    ∀ k acc, ∀ e ∈ (compositeAnyLoop env ids k acc).2.2, isCheckOrNet e = true := by
  induction ids with
  | nil =>
    intro k acc e he
    simp [compositeAnyLoop] at he
  | cons p rest ih =>
    intro k acc e he
    unfold compositeAnyLoop at he
    by_cases hs : env.stopF k = true
    · rw [if_pos hs] at he
      simp only [List.mem_singleton] at he
      subst he
      rfl
    · rw [if_neg hs] at he
      dsimp only at he
      simp only [List.mem_cons, List.mem_append] at he
      rcases he with rfl | hm | hm
      · rfl
      · exact searchLoop_evs env (env.pages (some p)) (k + 1) [] e hm
      · exact ih _ _ e hm

lemma search_for_range_evs (env : SearchEnv) (pids : List Str) (mode : String)
    (k : Nat) : ∀ e ∈ (search_assets_for_date_range env pids mode k).2.2,
    isCheckOrNet e = true := by
  intro e he
  unfold search_assets_for_date_range at he
  by_cases hs : env.stopF k = true
  · rw [if_pos hs] at he
    simp only [List.mem_singleton] at he
    subst he
    rfl
  · rw [if_neg hs] at he
    cases pids with
    | nil =>
      dsimp only at he
      simp only [List.mem_cons] at he
      rcases he with rfl | hm
      · rfl
      · exact searchLoop_evs env (env.pages none) (k + 1) [] e hm
    | cons p t =>
      cases t with
      | nil =>
        dsimp only at he
        simp only [List.mem_cons] at he
        rcases he with rfl | hm
        · rfl
        · exact searchLoop_evs env (env.pages (some p)) (k + 1) [] e hm
      | cons q t2 =>
        by_cases hm2 : mode = "all"
        · rw [if_pos hm2] at he
          dsimp only at he
          simp only [List.mem_cons] at he
          rcases he with rfl | hm
          · rfl
          · exact compositeAllLoop_evs env _ _ _ e hm
        · rw [if_neg hm2] at he
          dsimp only at he
          simp only [List.mem_cons] at he
          rcases he with rfl | hm
          · rfl
          · exact compositeAnyLoop_evs env _ _ _ e hm

lemma find_or_create_album_evs (albumExists : String → Bool) (album_name : String) :
    ∀ e ∈ find_or_create_album albumExists album_name, isCheckOrNet e = true := by
  intro e he
  unfold find_or_create_album at he
  by_cases hx : albumExists album_name = true
  · rw [if_pos hx] at he
    simp only [List.mem_singleton] at he
    subst he
    rfl
  · rw [if_neg hx] at he
    simp only [List.mem_cons, List.not_mem_nil, or_false] at he
    rcases he with rfl | rfl <;> rfl

lemma add_assets_evs (ids : List Str) :
    ∀ e ∈ add_assets_to_album ids, isCheckOrNet e = true := by
  intro e he
  unfold add_assets_to_album at he
  by_cases hx : ids.isEmpty = true
  · rw [if_pos hx] at he
    simp at he
  · rw [if_neg hx] at he
    simp only [List.mem_singleton] at he
    subst he
    rfl

lemma runYears_none_evs (env : RunEnv) (hol : String) (pids : List Str) (mode : String) :
    ∀ years k, (runYears env hol pids mode years k).2 = none →
    ∀ e ∈ (runYears env hol pids mode years k).1.1, isCheckOrNet e = true := by
  intro years
  induction years with
  | nil =>
    intro k _ e he
    simp [runYears] at he
  | cons y rest ih =>
    intro k hnone e he
    unfold runYears at hnone he
    by_cases hs : env.stopF k = true
    · rw [if_pos hs] at hnone
      simp at hnone
    · rw [if_neg hs] at hnone he
      cases hh : get_holiday_date y hol with
      | error msg =>
        rw [hh] at hnone
        simp at hnone
      | ok d =>
        rw [hh] at hnone he
        dsimp only at hnone he
        simp only [List.mem_cons, List.mem_append] at he
        rcases he with rfl | (hm | hm) | hm
        · rfl
        · exact search_for_range_evs ⟨env.stopF, env.pages⟩ pids mode (k + 1) e hm
        · exact add_assets_evs _ e hm
        · exact ih _ hnone e hm

lemma runYears_cancelled (env : RunEnv) (hol : String) (pids : List Str) (mode : String) :
    ∀ years k, (runYears env hol pids mode years k).2 = some .cancelled →
    ∃ pre, (runYears env hol pids mode years k).1.1 = pre ++ [.check true, .cancelled] ∧
      ∀ e ∈ pre, isCheckOrNet e = true := by
  intro years
  induction years with
  | nil =>
    intro k hc
    simp [runYears] at hc
  | cons y rest ih =>
    intro k hc
    unfold runYears at hc ⊢
    by_cases hs : env.stopF k = true
    · rw [if_pos hs]
      exact ⟨[], rfl, by simp⟩
    · rw [if_neg hs] at hc ⊢
      revert hc
      cases hh : get_holiday_date y hol with
      | error msg =>
        intro hc
        simp at hc
      | ok d =>
        intro hc
        dsimp only at hc ⊢
        obtain ⟨pre, hpre_eq, hpre⟩ := ih _ hc
        refine ⟨.check false ::
          ((search_assets_for_date_range ⟨env.stopF, env.pages⟩ pids mode (k + 1)).2.2 ++
            add_assets_to_album
              (search_assets_for_date_range ⟨env.stopF, env.pages⟩ pids mode (k + 1)).1 ++
            pre), ?_, ?_⟩
        · rw [hpre_eq]
          simp
        · intro e he
          simp only [List.mem_cons, List.mem_append] at he
          rcases he with rfl | ((hm | hm) | hm)
          · rfl
          · exact search_for_range_evs ⟨env.stopF, env.pages⟩ pids mode (k + 1) e hm
          · exact add_assets_evs _ e hm
          · exact hpre e hm

lemma runHolidays_cancelled (env : RunEnv) (pids : List Str) (mode : String) :
    ∀ items years k, (runHolidays env pids mode items years k).2 = .cancelled →
    ∃ pre, (runHolidays env pids mode items years k).1 = pre ++ [.check true, .cancelled] ∧
      ∀ e ∈ pre, isCheckOrNet e = true := by
  intro items
  induction items with
  | nil =>
    intro years k hc
    simp [runHolidays] at hc
  | cons item rest ih =>
    intro years k hc
    obtain ⟨hol, alb_name⟩ := item
    unfold runHolidays at hc ⊢
    dsimp only at hc ⊢
    revert hc
    cases hry : (runYears env hol pids mode years k).2 with
    | some o =>
      intro hc
      dsimp only at hc ⊢
      subst hc
      obtain ⟨pre, hpre_eq, hpre⟩ := runYears_cancelled env hol pids mode years k hry
      refine ⟨find_or_create_album env.albumExists alb_name ++ pre, ?_, ?_⟩
      · rw [hpre_eq]
        simp
      · intro e he
        rcases List.mem_append.mp he with hm | hm
        · exact find_or_create_album_evs env.albumExists alb_name e hm
        · exact hpre e hm
    | none =>
      intro hc
      dsimp only at hc ⊢
      obtain ⟨pre, hpre_eq, hpre⟩ := ih years _ hc
      refine ⟨find_or_create_album env.albumExists alb_name ++
        (runYears env hol pids mode years k).1.1 ++ pre, ?_, ?_⟩
      · rw [hpre_eq]
        simp
      · intro e he
        simp only [List.mem_append] at he
        rcases he with (hm | hm) | hm
        · exact find_or_create_album_evs env.albumExists alb_name e hm
        · exact runYears_none_evs env hol pids mode years k hry e hm
        · exact hpre e hm

/-- Amended claim C4: cancellation is polled at every year-task boundary
and before every search page; when the run ends Cancelled the terminating
flag observation is followed only by the "Operation Cancelled" status —
no further network request — and the run reports no error and no
completion.  But the album lookup/creation at the start of each target
and the bulk-attach call are issued without a preceding flag poll, so
(per the counterexample) network requests can still be issued after the
flag is set. -/
theorem cancellation_trace (env : RunEnv) (items : List (String × String))
    (years : List Nat) (ff rs : List Str) (mode : String)
    (h : (run_search env items years ff rs mode).2 = .cancelled) :
    ∃ pre, (run_search env items years ff rs mode).1 = pre ++ [.check true, .cancelled] ∧
      Ev.failed ∉ (run_search env items years ff rs mode).1 ∧
      Ev.completed ∉ (run_search env items years ff rs mode).1 := by
  obtain ⟨pre, heq, hpre⟩ :=
    runHolidays_cancelled env (combinePersonIds ff rs) mode items years 0 h
  refine ⟨pre, heq, ?_, ?_⟩
  · show Ev.failed ∉ (runHolidays env (combinePersonIds ff rs) mode items years 0).1
    rw [heq]
    intro hmem
    rcases List.mem_append.mp hmem with hm | hm
    · have := hpre _ hm
      simp [isCheckOrNet] at this
    · simp at hm
  · show Ev.completed ∉ (runHolidays env (combinePersonIds ff rs) mode items years 0).1
    rw [heq]
    intro hmem
    rcases List.mem_append.mp hmem with hm | hm
    · have := hpre _ hm
      simp [isCheckOrNet] at this
    · simp at hm

/-- Witness for the amended C4 at the concrete always-cancelled run. -/
theorem cancellation_trace_witness :
    ∃ pre, (run_search ⟨fun _ => true, fun _ => [], fun _ => true⟩
        [("Christmas", "Christmas")] [2024] [] [] "any").1 =
        pre ++ [.check true, .cancelled] ∧
      Ev.failed ∉ (run_search ⟨fun _ => true, fun _ => [], fun _ => true⟩
        [("Christmas", "Christmas")] [2024] [] [] "any").1 ∧
      Ev.completed ∉ (run_search ⟨fun _ => true, fun _ => [], fun _ => true⟩
        [("Christmas", "Christmas")] [2024] [] [] "any").1 :=
  cancellation_trace ⟨fun _ => true, fun _ => [], fun _ => true⟩
    [("Christmas", "Christmas")] [2024] [] [] "any" (by decide)

/-
URL normalization (`_normalize_api_base_url`), over a model of CPython's
`urlsplit`/`urlunsplit` (ASCII behaviour; the NFKC netloc check, which
only concerns non-ASCII input, and bracketed-host validation beyond the
bracket-mismatch `ValueError` are not modelled — both are deterministic
and shared by the two passes the idempotence claim compares).
-/

def isUnsafeUrlChar (c : Char) : Bool := c = '\t' || c = '\r' || c = '\n'

/-- CPython `urlsplit` removes tab, CR and LF before parsing. -/
def removeUnsafe (s : Str) : Str := s.filter (fun c => !isUnsafeUrlChar c)

def isSchemeChar (c : Char) : Bool :=
  c.isAlpha || c.isDigit || c = '+' || c = '-' || c = '.'

def isNetlocDelim (c : Char) : Bool := c = '/' || c = '?' || c = '#'

def isSlash (c : Char) : Bool := c = '/'

/-- Python `s.find(c)` (index of first occurrence). -/
def findFirstIdx (p : Char → Bool) : Str → Option Nat
  | [] => none
  | c :: cs => if p c then some 0 else (findFirstIdx p cs).map (fun i => i + 1)

/-- The scheme step of `urlsplit`: a scheme is recognized before the
first `:` when that prefix is non-empty, starts with an ASCII letter and
consists of scheme characters; it is lowercased. -/
def splitScheme (s : Str) : Str × Str :=
  match findFirstIdx (fun c => c = ':') s with
  | none => ([], s)
  | some i =>
    if 0 < i ∧ (s.headD ' ').isAlpha ∧ (s.take i).all isSchemeChar then
      ((s.take i).map Char.toLower, s.drop (i + 1))
    else ([], s)

def bracketMismatch (netloc : Str) : Bool :=
  ('[' ∈ netloc && !(']' ∈ netloc)) || (']' ∈ netloc && !('[' ∈ netloc))

/-- The netloc step of `urlsplit`: after a leading `//`, the netloc runs
to the first `/`, `?` or `#`; mismatched brackets raise `ValueError`
(modelled as `none`). -/
def splitNetloc (s : Str) : Option (Str × Str) :=
  if s.take 2 = ['/', '/'] then
    let rest := s.drop 2
    let idx := (findFirstIdx isNetlocDelim rest).getD rest.length
    let netloc := rest.take idx
    if bracketMismatch netloc then none
    else some (netloc, rest.drop idx)
  else some ([], s)

structure SplitResult where
  scheme : Str
  netloc : Str
  path : Str
  query : Str
  fragment : Str

/-- CPython `urlsplit` (with `allow_fragments=True`): unsafe-byte
removal, scheme, netloc, then the fragment is split off at the first `#`
and the query at the first `?`. -/
def pyUrlsplit (url0 : Str) : Option SplitResult :=
  let url := removeUnsafe url0
  let sp := splitScheme url
  match splitNetloc sp.2 with
  | none => none
  | some nl =>
    let fr : Str × Str :=
      if '#' ∈ nl.2 then
        (nl.2.takeWhile (fun c => c ≠ '#'), (nl.2.dropWhile (fun c => c ≠ '#')).drop 1)
      else (nl.2, [])
    let pq : Str × Str :=
      if '?' ∈ fr.1 then
        (fr.1.takeWhile (fun c => c ≠ '?'), (fr.1.dropWhile (fun c => c ≠ '?')).drop 1)
      else (fr.1, [])
    some ⟨sp.1, nl.1, pq.1, pq.2, fr.2⟩

/-- CPython `urlunsplit`. -/
def pyUrlunsplit (scheme netloc path query fragment : Str) : Str :=
  let url :=
    if netloc ≠ [] ∨ (path ≠ [] ∧ path.take 2 = ['/', '/']) then
      ['/', '/'] ++ netloc ++ (if path ≠ [] ∧ path.headD ' ' ≠ '/' then '/' :: path else path)
    else path
  let url := if scheme ≠ [] then scheme ++ ':' :: url else url
  let url := if query ≠ [] then url ++ '?' :: query else url
  if fragment ≠ [] then url ++ '#' :: fragment else url

/-- `_normalize_api_base_url` of the source (for string input): strip
whitespace, empty → empty, strip trailing slashes, and when the URL is a
bare http(s) scheme+host with empty or root path, append `/api`;
`ValueError` from `urlsplit` returns the slash-stripped URL unchanged. -/
def normalize_api_base_url (value : Str) : Str :=
  let url := pyStrip value
  if url = [] then []
  else
    let url := pyRstrip isSlash url
    match pyUrlsplit url with
    | none => url
    | some parts =>
      if (parts.scheme = "http".data ∨ parts.scheme = "https".data) ∧ parts.netloc ≠ [] then
        let path := pyRstrip isSlash parts.path
        if path = [] ∨ path = ['/'] then
          pyRstrip isSlash (pyUrlunsplit parts.scheme parts.netloc "/api".data [] [])
        else url
      else url

/-- Counterexample to C10: normalization is not idempotent.  On input
`"x /"` the first pass strips the trailing slash, exposing a trailing
space that only the second pass's whitespace-strip removes:
`normalize("x /") = "x "` but `normalize("x ") = "x"`. -/
theorem normalize_not_idempotent :
    normalize_api_base_url (normalize_api_base_url "x /".data) ≠
      normalize_api_base_url "x /".data ∧
    normalize_api_base_url "x /".data = "x ".data ∧
    normalize_api_base_url "x ".data = "x".data := by
  decide

/-- Whether a string ends in Python whitespace (the default 'x' for the
empty string is not whitespace). -/
def endsInSpace (s : Str) : Bool := isPySpace (s.reverse.headD 'x')

lemma dropWhile_cons_false (p : Char → Bool) (c : Char) (t : Str) (h : p c = false) :
    List.dropWhile p (c :: t) = c :: t := by
  rw [List.dropWhile_cons, h]
  simp

lemma dropWhile_head_false (p : Char → Bool) :
    ∀ (l : Str) c t, List.dropWhile p l = c :: t → p c = false := by
  intro l
  induction l with
  | nil =>
    intro c t h
    simp at h
  | cons a l ih =>
    intro c t h
    rw [List.dropWhile_cons] at h
    by_cases ha : p a = true
    · rw [if_pos ha] at h
      exact ih c t h
    · rw [if_neg ha] at h
      injection h with h1 h2
      subst h1
      simpa using ha

lemma dropWhile_idem (p : Char → Bool) (l : Str) :
    List.dropWhile p (List.dropWhile p l) = List.dropWhile p l := by
  cases hd : List.dropWhile p l with
  | nil => rfl
  | cons c t => exact dropWhile_cons_false p c t (dropWhile_head_false p l c t hd)

lemma pyRstrip_idem (p : Char → Bool) (s : Str) :
    pyRstrip p (pyRstrip p s) = pyRstrip p s := by
  unfold pyRstrip
  rw [List.reverse_reverse, dropWhile_idem]

lemma dropWhile_eq_self_of_head (p : Char → Bool) (l : Str)
    (h : p (l.headD 'x') = false) : List.dropWhile p l = l := by
  cases l with
  | nil => rfl
  | cons c t => exact dropWhile_cons_false p c t (by simpa using h)

lemma rstrip_of_ends (p : Char → Bool) (s : Str)
    (h : p (s.reverse.headD 'x') = false) : pyRstrip p s = s := by
  unfold pyRstrip
  rw [dropWhile_eq_self_of_head p s.reverse h, List.reverse_reverse]

lemma pyStrip_eq_self_of (s : Str)
    (h1 : isPySpace (s.headD 'x') = false)
    (h2 : endsInSpace s = false) : pyStrip s = s := by
  unfold pyStrip
  rw [dropWhile_eq_self_of_head isPySpace s h1,
    dropWhile_eq_self_of_head isPySpace s.reverse (by simpa [endsInSpace] using h2)]
  exact List.reverse_reverse s

lemma prefix_headD (l₁ l₂ : Str) (h : l₁ <+: l₂) (hne : l₁ ≠ []) :
    l₁.headD 'x' = l₂.headD 'x' := by
  obtain ⟨r, rfl⟩ := h
  cases l₁ with
  | nil => exact absurd rfl hne
  | cons c t => rfl

lemma pyRstrip_front (p : Char → Bool) (s : Str) : pyRstrip p s <+: s := by
  unfold pyRstrip
  have h := List.dropWhile_suffix (l := s.reverse) p
  have h2 := List.reverse_prefix.mpr h
  rwa [List.reverse_reverse] at h2

lemma pyStrip_head (s : Str) : isPySpace ((pyStrip s).headD 'x') = false := by
  have hpre : pyStrip s <+: s.dropWhile isPySpace :=
    pyRstrip_front isPySpace (s.dropWhile isPySpace)
  by_cases hne : pyStrip s = []
  · rw [hne]
    decide
  · rw [prefix_headD _ _ hpre hne]
    cases hd : s.dropWhile isPySpace with
    | nil => decide
    | cons c t =>
      simpa using dropWhile_head_false isPySpace s c t hd

lemma u1_head (s : Str) :
    isPySpace ((pyRstrip isSlash (pyStrip s)).headD 'x') = false := by
  by_cases hne : pyRstrip isSlash (pyStrip s) = []
  · rw [hne]
    decide
  · rw [prefix_headD _ _ (pyRstrip_front isSlash (pyStrip s)) hne]
    exact pyStrip_head s

lemma findFirstIdx_append_first (p : Char → Bool) (a : Str) (c : Char) (b : Str)
    (ha : ∀ x ∈ a, p x = false) (hc : p c = true) :
    findFirstIdx p (a ++ c :: b) = some a.length := by
  induction a with
  | nil =>
    rw [List.nil_append]
    unfold findFirstIdx
    rw [if_pos hc]
    rfl
  | cons x t ih =>
    rw [List.cons_append]
    unfold findFirstIdx
    rw [if_neg (by simp [ha x (List.mem_cons_self x t)]),
      ih (fun y hy => ha y (List.mem_cons_of_mem _ hy))]
    simp

lemma take_findFirstIdx_false (p : Char → Bool) :
    ∀ l : Str, ∀ c ∈ l.take ((findFirstIdx p l).getD l.length), p c = false := by
  intro l
  induction l with
  | nil => simp
  | cons a t ih =>
    unfold findFirstIdx
    by_cases ha : p a = true
    · rw [if_pos ha]
      simp
    · rw [if_neg ha]
      cases hft : findFirstIdx p t with
      | none =>
        simp only [Option.map_none', Option.getD_none, List.length_cons]
        intro c hc
        rw [List.take_succ_cons] at hc
        rcases List.mem_cons.mp hc with rfl | hm
        · simpa using ha
        · have := ih c
          rw [hft] at this
          exact this (by simpa using hm)
      | some i =>
        simp only [Option.map_some', Option.getD_some]
        intro c hc
        rw [List.take_succ_cons] at hc
        rcases List.mem_cons.mp hc with rfl | hm
        · simpa using ha
        · have := ih c
          rw [hft] at this
          exact this hm

lemma mem_removeUnsafe (u : Str) (c : Char) (h : c ∈ removeUnsafe u) :
    isUnsafeUrlChar c = false := by
  have := (List.mem_filter.mp h).2
  simpa using this

lemma mem_splitScheme_snd (v : Str) (c : Char) (h : c ∈ (splitScheme v).2) : c ∈ v := by
  unfold splitScheme at h
  revert h
  cases hf : findFirstIdx (fun c => c = ':') v with
  | none =>
    intro h
    exact h
  | some i =>
    intro h
    dsimp only at h
    by_cases hc : 0 < i ∧ (v.headD ' ').isAlpha ∧ (v.take i).all isSchemeChar
    · rw [if_pos hc] at h
      exact List.mem_of_mem_drop h
    · rw [if_neg hc] at h
      exact h

lemma splitNetloc_facts (v : Str) (nl : Str × Str) (h : splitNetloc v = some nl)
    (hv : ∀ c ∈ v, isUnsafeUrlChar c = false) :
    bracketMismatch nl.1 = false ∧
    ∀ c ∈ nl.1, isNetlocDelim c = false ∧ isUnsafeUrlChar c = false := by
  obtain ⟨n1, n2⟩ := nl
  unfold splitNetloc at h
  revert h
  by_cases h2 : v.take 2 = ['/', '/']
  · rw [if_pos h2]
    dsimp only
    by_cases hbr : bracketMismatch ((v.drop 2).take
        ((findFirstIdx isNetlocDelim (v.drop 2)).getD (v.drop 2).length)) = true
    · rw [if_pos hbr]
      intro h
      simp at h
    · rw [if_neg hbr]
      intro h
      simp only [Option.some.injEq, Prod.mk.injEq] at h
      obtain ⟨h3, h4⟩ := h
      subst h3
      refine ⟨by simpa using hbr, fun c hc => ?_⟩
      refine ⟨take_findFirstIdx_false isNetlocDelim (v.drop 2) c hc, ?_⟩
      exact hv c (List.mem_of_mem_drop (List.mem_of_mem_take hc))
  · rw [if_neg h2]
    intro h
    simp only [Option.some.injEq, Prod.mk.injEq] at h
    obtain ⟨h3, h4⟩ := h
    subst h3
    exact ⟨rfl, by simp⟩

lemma pyUrlsplit_netloc (u : Str) (parts : SplitResult) (h : pyUrlsplit u = some parts) :
    ∃ nl : Str × Str, splitNetloc (splitScheme (removeUnsafe u)).2 = some nl ∧
      parts.netloc = nl.1 := by
  unfold pyUrlsplit at h
  dsimp only at h
  revert h
  cases hnl : splitNetloc (splitScheme (removeUnsafe u)).2 with
  | none =>
    intro h
    simp at h
  | some nl =>
    intro h
    refine ⟨nl, rfl, ?_⟩
    simp only [Option.some.injEq] at h
    rw [← h]

lemma pyUrlsplit_netloc_facts (u : Str) (parts : SplitResult)
    (h : pyUrlsplit u = some parts) :
    bracketMismatch parts.netloc = false ∧
    ∀ c ∈ parts.netloc, isNetlocDelim c = false ∧ isUnsafeUrlChar c = false := by
  obtain ⟨nl, hnl, hpn⟩ := pyUrlsplit_netloc u parts h
  rw [hpn]
  exact splitNetloc_facts _ nl hnl
    (fun c hc => mem_removeUnsafe u c (mem_splitScheme_snd _ c hc))

lemma removeUnsafe_api (scheme netloc : Str)
    (hsch : ∀ c ∈ scheme, isUnsafeUrlChar c = false)
    (hnd : ∀ c ∈ netloc, isUnsafeUrlChar c = false) :
    removeUnsafe (scheme ++ ':' :: '/' :: '/' :: (netloc ++ "/api".data)) =
      scheme ++ ':' :: '/' :: '/' :: (netloc ++ "/api".data) := by
  refine List.filter_eq_self.mpr (fun c hc => ?_)
  rcases List.mem_append.mp hc with hm | hm
  · simp [hsch c hm]
  · simp only [List.mem_cons] at hm
    rcases hm with rfl | rfl | rfl | hm
    · decide
    · decide
    · decide
    · rcases List.mem_append.mp hm with hm2 | hm2
      · simp [hnd c hm2]
      · simp only [List.mem_cons, List.not_mem_nil, or_false] at hm2
        rcases hm2 with rfl | rfl | rfl | rfl <;> decide

lemma pyUrlsplit_api_core (scheme netloc : Str)
    (hclean : removeUnsafe (scheme ++ ':' :: '/' :: '/' :: (netloc ++ "/api".data)) =
      scheme ++ ':' :: '/' :: '/' :: (netloc ++ "/api".data))
    (hscheme : splitScheme (scheme ++ ':' :: '/' :: '/' :: (netloc ++ "/api".data)) =
      (scheme, '/' :: '/' :: (netloc ++ "/api".data)))
    (hnd : ∀ c ∈ netloc, isNetlocDelim c = false)
    (hbr : bracketMismatch netloc = false) :
    pyUrlsplit (scheme ++ ':' :: '/' :: '/' :: (netloc ++ "/api".data)) =
      some ⟨scheme, netloc, "/api".data, [], []⟩ := by
  have hnetsplit : splitNetloc ('/' :: '/' :: (netloc ++ "/api".data)) =
      some (netloc, "/api".data) := by
    unfold splitNetloc
    rw [if_pos (show ('/' :: '/' :: (netloc ++ "/api".data)).take 2 = ['/', '/'] from rfl)]
    dsimp only
    rw [show ('/' :: '/' :: (netloc ++ "/api".data)).drop 2 = netloc ++ '/' :: "api".data
      from rfl]
    rw [findFirstIdx_append_first isNetlocDelim netloc '/' "api".data hnd (by decide)]
    dsimp only [Option.getD_some]
    rw [List.take_left, List.drop_left]
    rw [if_neg (by simp [hbr])]
  unfold pyUrlsplit
  dsimp only
  rw [hclean, hscheme]
  dsimp only
  rw [hnetsplit]
  dsimp only
  rw [if_neg (show ¬('#' ∈ "/api".data) from by decide)]
  dsimp only
  rw [if_neg (show ¬('?' ∈ "/api".data) from by decide)]

lemma splitScheme_api_http (netloc : Str) :
    splitScheme ("http".data ++ ':' :: '/' :: '/' :: (netloc ++ "/api".data)) =
      ("http".data, '/' :: '/' :: (netloc ++ "/api".data)) := by
  unfold splitScheme
  rw [show findFirstIdx (fun c => c = ':')
      ("http".data ++ ':' :: '/' :: '/' :: (netloc ++ "/api".data)) = some 4 from rfl]
  dsimp only
  rw [if_pos (show 0 < 4 ∧
      (("http".data ++ ':' :: '/' :: '/' :: (netloc ++ "/api".data)).headD ' ').isAlpha ∧
      (("http".data ++ ':' :: '/' :: '/' :: (netloc ++ "/api".data)).take 4).all isSchemeChar
    from ⟨by decide, rfl, rfl⟩)]
  rfl

lemma splitScheme_api_https (netloc : Str) :
    splitScheme ("https".data ++ ':' :: '/' :: '/' :: (netloc ++ "/api".data)) =
      ("https".data, '/' :: '/' :: (netloc ++ "/api".data)) := by
  unfold splitScheme
  rw [show findFirstIdx (fun c => c = ':')
      ("https".data ++ ':' :: '/' :: '/' :: (netloc ++ "/api".data)) = some 5 from rfl]
  dsimp only
  rw [if_pos (show 0 < 5 ∧
      (("https".data ++ ':' :: '/' :: '/' :: (netloc ++ "/api".data)).headD ' ').isAlpha ∧
      (("https".data ++ ':' :: '/' :: '/' :: (netloc ++ "/api".data)).take 5).all isSchemeChar
    from ⟨by decide, rfl, rfl⟩)]
  rfl

lemma pyUrlsplit_api (scheme netloc : Str)
    (hs : scheme = "http".data ∨ scheme = "https".data)
    (hnd : ∀ c ∈ netloc, isNetlocDelim c = false ∧ isUnsafeUrlChar c = false)
    (hbr : bracketMismatch netloc = false) :
    pyUrlsplit (scheme ++ ':' :: '/' :: '/' :: (netloc ++ "/api".data)) =
      some ⟨scheme, netloc, "/api".data, [], []⟩ := by
  have hclean := removeUnsafe_api scheme netloc
    (by rcases hs with rfl | rfl <;> decide) (fun c hc => (hnd c hc).2)
  rcases hs with rfl | rfl
  · exact pyUrlsplit_api_core _ _ hclean (splitScheme_api_http netloc)
      (fun c hc => (hnd c hc).1) hbr
  · exact pyUrlsplit_api_core _ _ hclean (splitScheme_api_https netloc)
      (fun c hc => (hnd c hc).1) hbr

lemma normalize_fixed_unsplit (scheme netloc : Str)
    (hs : scheme = "http".data ∨ scheme = "https".data)
    (hne : netloc ≠ [])
    (hnd : ∀ c ∈ netloc, isNetlocDelim c = false ∧ isUnsafeUrlChar c = false)
    (hbr : bracketMismatch netloc = false) :
    normalize_api_base_url (pyRstrip isSlash (pyUrlunsplit scheme netloc "/api".data [] []))
      = pyRstrip isSlash (pyUrlunsplit scheme netloc "/api".data [] []) := by
  have hU : pyUrlunsplit scheme netloc "/api".data [] [] =
      scheme ++ ':' :: '/' :: '/' :: (netloc ++ "/api".data) := by
    unfold pyUrlunsplit
    dsimp only
    rw [if_neg (show ¬(([] : Str) ≠ []) from by simp)]
    rw [if_neg (show ¬(([] : Str) ≠ []) from by simp)]
    rw [if_pos (show scheme ≠ [] from by rcases hs with rfl | rfl <;> decide)]
    rw [if_pos (Or.inl hne)]
    rw [if_neg (show ¬("/api".data ≠ [] ∧ ("/api".data).headD ' ' ≠ '/') from by decide)]
    rfl
  have hshape : scheme ++ ':' :: '/' :: '/' :: (netloc ++ "/api".data) =
      (scheme ++ ':' :: '/' :: '/' :: netloc) ++ "/api".data := by
    rw [List.append_assoc]
    rfl
  have hends : isSlash ((pyUrlunsplit scheme netloc "/api".data [] []).reverse.headD 'x')
      = false := by
    rw [hU, hshape, List.reverse_append]
    rfl
  have hrstrip := rstrip_of_ends isSlash (pyUrlunsplit scheme netloc "/api".data [] []) hends
  have hhead : isPySpace ((pyUrlunsplit scheme netloc "/api".data [] []).headD 'x')
      = false := by
    rw [hU]
    rcases hs with rfl | rfl <;> rfl
  have hendsp : endsInSpace (pyUrlunsplit scheme netloc "/api".data [] []) = false := by
    unfold endsInSpace
    rw [hU, hshape, List.reverse_append]
    rfl
  have hne2 : pyUrlunsplit scheme netloc "/api".data [] [] ≠ [] := by
    rw [hU]
    rcases hs with rfl | rfl <;> simp
  rw [hrstrip]
  unfold normalize_api_base_url
  dsimp only
  rw [pyStrip_eq_self_of _ hhead hendsp]
  rw [if_neg hne2]
  rw [hrstrip]
  rw [hU]
  rw [pyUrlsplit_api scheme netloc hs hnd hbr]
  dsimp only
  rw [if_pos (⟨hs, hne⟩ :
    (scheme = "http".data ∨ scheme = "https".data) ∧ netloc ≠ [])]
  rw [if_neg (show ¬(pyRstrip isSlash "/api".data = [] ∨
      pyRstrip isSlash "/api".data = ['/']) from by decide)]

lemma normalize_fixed_unchanged (u1 : Str)
    (hhead : isPySpace (u1.headD 'x') = false)
    (hend : endsInSpace u1 = false)
    (hfix : pyRstrip isSlash u1 = u1)
    (hbranch : ∀ parts, pyUrlsplit u1 = some parts →
      ¬(((parts.scheme = "http".data ∨ parts.scheme = "https".data) ∧ parts.netloc ≠ []) ∧
        (pyRstrip isSlash parts.path = [] ∨ pyRstrip isSlash parts.path = ['/']))) :
    normalize_api_base_url u1 = u1 := by
  unfold normalize_api_base_url
  dsimp only
  rw [pyStrip_eq_self_of u1 hhead hend]
  by_cases hnil : u1 = []
  · rw [if_pos hnil]
    exact hnil.symm
  · rw [if_neg hnil, hfix]
    cases hsplit : pyUrlsplit u1 with
    | none => rfl
    | some parts =>
      dsimp only
      have hb := hbranch parts hsplit
      by_cases hcond : (parts.scheme = "http".data ∨ parts.scheme = "https".data) ∧
          parts.netloc ≠ []
      · rw [if_pos hcond]
        rw [if_neg (fun hp => hb ⟨hcond, hp⟩)]
      · rw [if_neg hcond]

/-- Amended claim C10: URL normalization is idempotent on every input
whose normalized form does not end in whitespace — in particular on every
URL the `/api`-append branch produces and on every whitespace-clean
input.  In general it is not idempotent (see the counterexample): when
stripping trailing slashes exposes trailing whitespace, a second pass
strips further. -/
theorem normalize_idempotent_amended (s : Str)
    (h : endsInSpace (normalize_api_base_url s) = false) :
    normalize_api_base_url (normalize_api_base_url s) = normalize_api_base_url s := by
  by_cases h0 : pyStrip s = []
  · have h1 : normalize_api_base_url s = [] := by
      unfold normalize_api_base_url
      dsimp only
      rw [if_pos h0]
    rw [h1]
    decide
  · cases hsplit : pyUrlsplit (pyRstrip isSlash (pyStrip s)) with
    | none =>
      have heq : normalize_api_base_url s = pyRstrip isSlash (pyStrip s) := by
        unfold normalize_api_base_url
        dsimp only
        rw [if_neg h0, hsplit]
      rw [heq] at h ⊢
      exact normalize_fixed_unchanged _ (u1_head s) h (pyRstrip_idem _ _)
        (fun parts hp => by rw [hsplit] at hp; exact Option.noConfusion hp)
    | some parts =>
      by_cases hcond : (parts.scheme = "http".data ∨ parts.scheme = "https".data) ∧
          parts.netloc ≠ []
      · by_cases hpath : pyRstrip isSlash parts.path = [] ∨
            pyRstrip isSlash parts.path = ['/']
        · have heq : normalize_api_base_url s =
              pyRstrip isSlash (pyUrlunsplit parts.scheme parts.netloc "/api".data [] []) := by
            unfold normalize_api_base_url
            dsimp only
            rw [if_neg h0, hsplit]
            dsimp only
            rw [if_pos hcond, if_pos hpath]
          rw [heq]
          obtain ⟨hbr, hnd⟩ := pyUrlsplit_netloc_facts _ parts hsplit
          exact normalize_fixed_unsplit parts.scheme parts.netloc hcond.1 hcond.2 hnd hbr
        · have heq : normalize_api_base_url s = pyRstrip isSlash (pyStrip s) := by
            unfold normalize_api_base_url
            dsimp only
            rw [if_neg h0, hsplit]
            dsimp only
            rw [if_pos hcond, if_neg hpath]
          rw [heq] at h ⊢
          exact normalize_fixed_unchanged _ (u1_head s) h (pyRstrip_idem _ _)
            (fun parts' hp => by
              rw [hsplit] at hp
              injection hp with hp'
              subst hp'
              rintro ⟨hc', hp2⟩
              exact hpath hp2)
      · have heq : normalize_api_base_url s = pyRstrip isSlash (pyStrip s) := by
          unfold normalize_api_base_url
          dsimp only
          rw [if_neg h0, hsplit]
          dsimp only
          rw [if_neg hcond]
        rw [heq] at h ⊢
        exact normalize_fixed_unchanged _ (u1_head s) h (pyRstrip_idem _ _)
          (fun parts' hp => by
            rw [hsplit] at hp
            injection hp with hp'
            subst hp'
            rintro ⟨hc', hp2⟩
            exact hcond hc')

/-- Witness for the amended C10 at a concrete URL. -/
theorem normalize_idempotent_amended_witness :
    endsInSpace (normalize_api_base_url "https://immich.example.com/".data) = false ∧
    normalize_api_base_url
        (normalize_api_base_url "https://immich.example.com/".data) =
      normalize_api_base_url "https://immich.example.com/".data :=
  ⟨by decide, normalize_idempotent_amended "https://immich.example.com/".data (by decide)⟩
